import Mathlib

/-!
# Verification of the KiCad S-expression parsing pipeline

Shallow embedding of the parsing core of the KiCad-Projekt-Manager
repository (src/src/renderer/parser/sexpr.ts, schematicParser.ts,
pcbParser.ts, and the arc reconstruction in PcbViewer.tsx), together
with proofs settling the specification claims about it.

Modelling conventions:
* TypeScript numbers are modelled as rationals.  A value that the source
  can set to JavaScript NaN is modelled as an `Option` rational, with
  `none` standing for NaN (`Number(...)` on an unparsable string).
* `Number(tok)` on a token is modelled by a full-string decimal parser
  (sign, digits, decimal point, exponent).  Hexadecimal, octal, binary
  and Infinity literal forms of the JavaScript grammar are not modelled;
  no claim mentions them.
* `String(x)` coercion is modelled by `toStr` (JavaScript array
  stringification joins elements with commas).
* `Math.sqrt` and `Math.atan2` produce irrational values; model records
  keep the squared radius / the defining points instead.  No claim
  inspects those fields.
-/

/-- The generic S-expression node: `SExpr = string | number | SExpr[]`
from sexpr.ts, with numbers as rationals. -/
inductive SExpr where
  | str (s : String)
  | num (q : ℚ)
  | list (xs : List SExpr)
  deriving Repr

mutual

def decEqSExpr : (a b : SExpr) → Decidable (a = b)
  | .str a, .str b =>
    match decEq a b with
    | isTrue h => isTrue (by rw [h])
    | isFalse h => isFalse (by intro e; cases e; exact h rfl)
  | .num a, .num b =>
    match decEq a b with
    | isTrue h => isTrue (by rw [h])
    | isFalse h => isFalse (by intro e; cases e; exact h rfl)
  | .list a, .list b =>
    match decEqSExprList a b with
    | isTrue h => isTrue (by rw [h])
    | isFalse h => isFalse (by intro e; cases e; exact h rfl)
  | .str _, .num _ => isFalse nofun
  | .str _, .list _ => isFalse nofun
  | .num _, .str _ => isFalse nofun
  | .num _, .list _ => isFalse nofun
  | .list _, .str _ => isFalse nofun
  | .list _, .num _ => isFalse nofun

def decEqSExprList : (a b : List SExpr) → Decidable (a = b)
  | [], [] => isTrue rfl
  | a :: as, b :: bs =>
    match decEqSExpr a b, decEqSExprList as bs with
    | isTrue h1, isTrue h2 => isTrue (by rw [h1, h2])
    | isFalse h1, _ => isFalse (by intro e; cases e; exact h1 rfl)
    | _, isFalse h2 => isFalse (by intro e; cases e; exact h2 rfl)
  | [], _ :: _ => isFalse nofun
  | _ :: _, [] => isFalse nofun

end

instance : DecidableEq SExpr := decEqSExpr

/-- Whitespace characters recognised by the tokenizer
(space, tab, LF, CR). -/
def isWsChar (c : Char) : Bool :=
  c = ' ' || c = '\t' || c = '\n' || c = '\r'

/-- Characters that terminate an unquoted atom: whitespace, parentheses
and the double quote. -/
def isDelimChar (c : Char) : Bool :=
  isWsChar c || c = '(' || c = ')' || c = '\"'

/-- The quoted-string scan of `parseSExpression`: consume characters up
to the matching unescaped quote, a backslash escaping the following
character; return the scanned text and the remaining input (the closing
quote consumed).  An unterminated string consumes everything. -/
def scanString : List Char → List Char × List Char
  | [] => ([], [])
  | c :: rest =>
    if c = '\"' then ([], rest)
    else if c = '\\' then
      match rest with
      | [] => ([], [])
      | d :: rest2 =>
        let p := scanString rest2
        (d :: p.1, p.2)
    else
      let p := scanString rest
      (c :: p.1, p.2)

theorem scanString_snd_length_le : ∀ cs : List Char, (scanString cs).2.length ≤ cs.length
  | [] => by simp [scanString.eq_def]
  | c :: rest => by
    by_cases h1 : c = '\"'
    · simp [scanString.eq_def, h1]
    · by_cases h2 : c = '\\'
      · match rest with
        | [] => simp [scanString.eq_def, h1, h2]
        | d :: rest2 =>
          have ih := scanString_snd_length_le rest2
          rw [scanString.eq_def]
          simp only [if_pos h2, if_neg h1, List.length_cons]
          omega
      · have ih := scanString_snd_length_le rest
        rw [scanString.eq_def]
        simp only [if_neg h2, if_neg h1, List.length_cons]
        omega
  termination_by cs => cs.length

-- ### Numeric token parsing: a model of JavaScript Number(token)

/-- Value of a digit character. -/
def digitVal (c : Char) : ℕ := c.toNat - '0'.toNat

/-- Numeric value of a digit string (most significant digit first). -/
def charsToNat (ds : List Char) : ℕ := ds.foldl (fun a c => a * 10 + digitVal c) 0

/-- Split a leading sign character; returns (isNegative, rest). -/
def decSplitSign (cs : List Char) : Bool × List Char :=
  match cs with
  | c :: r => if c = '-' then (true, r) else if c = '+' then (false, r) else (false, cs)
  | [] => (false, cs)

/-- Parse an optional exponent suffix: empty means exponent 0; otherwise
the whole remaining input must be e or E, an optional sign and a
nonempty digit run. -/
def parseExpPart : List Char → Option ℤ
  | [] => some 0
  | e :: r =>
    if e = 'e' ∨ e = 'E' then
      let sp := decSplitSign r
      let eds := sp.2.takeWhile Char.isDigit
      let r2 := sp.2.dropWhile Char.isDigit
      if eds = [] ∨ r2 ≠ [] then none
      else some (if sp.1 then -(charsToNat eds : ℤ) else (charsToNat eds : ℤ))
    else none

/-- Full-string decimal literal parse: sign, integer digits, optional
fraction, optional exponent.  Returns none (NaN) unless the entire
input is consumed and at least one mantissa digit is present. -/
def parseDecCore (cs : List Char) : Option ℚ :=
  let sp := decSplitSign cs
  let ids := sp.2.takeWhile Char.isDigit
  let r1 := sp.2.dropWhile Char.isDigit
  let fp : Option (List Char × List Char) :=
    match r1 with
    | '.' :: r2 => some (r2.takeWhile Char.isDigit, r2.dropWhile Char.isDigit)
    | _ => none
  let fds := (fp.map Prod.fst).getD []
  let r2 := (fp.map Prod.snd).getD r1
  if ids = [] ∧ fds = [] then none
  else
    match parseExpPart r2 with
    | none => none
    | some e =>
      let mant : ℚ := (charsToNat ids : ℚ) + (charsToNat fds : ℚ) / 10 ^ fds.length
      let v := mant * (10 : ℚ) ^ e
      some (if sp.1 then -v else v)

/-- Model of JavaScript Number(string): trim whitespace, empty means 0,
otherwise the full-string decimal parse; none models NaN.  (Hexadecimal,
octal, binary and Infinity literals are not modelled.) -/
def jsStrToNum (s : String) : Option ℚ :=
  let t := ((s.data.dropWhile isWsChar).reverse.dropWhile isWsChar).reverse
  if t = [] then some 0 else parseDecCore t

/-- The unquoted-atom classification of `parseSExpression`:
`Number(atom)` succeeding (and the atom being nonempty) yields a numeric
atom, otherwise the token stays text. -/
def classifyAtom (s : String) : SExpr :=
  match jsStrToNum s with
  | some q => if s = "" then .str s else .num q
  | none => .str s

-- ### The scan loop of parseSExpression

/-- Append a node to the currently open list frame (the stack top). -/
def pushTop (x : SExpr) : List (List SExpr) → List (List SExpr)
  | [] => [[x]]
  | f :: fs => (f ++ [x]) :: fs

/-- End of input: every still-open list frame is already an element of
its parent (the source pushes the new array into the parent when it
sees the opening parenthesis), so fold the remaining frames down into
the root frame and return it. -/
def finishFrames : List (List SExpr) → List SExpr
  | [] => []
  | f :: fs => fs.foldl (fun acc g => g ++ [SExpr.list acc]) f

/-- The character scan of `parseSExpression` over a stack of open list
frames (head = innermost).  The seeded root frame is the bottom; on a
closing parenthesis with only the root frame open, the source pops it
and immediately re-seeds the stack with the same root array, which is a
no-op here. -/
def run : List Char → List (List SExpr) → List SExpr
  | [], frames => finishFrames frames
  | c :: rest, frames =>
    if c = '(' then run rest ([] :: frames)
    else if c = ')' then
      match frames with
      | [] => run rest []
      | [f] => run rest [f]
      | f :: g :: gs => run rest ((g ++ [SExpr.list f]) :: gs)
    else if c = '\"' then
      let p := scanString rest
      run p.2 (pushTop (.str (String.mk p.1)) frames)
    else if isWsChar c then run rest frames
    else
      let tok := c :: rest.takeWhile (fun d => !isDelimChar d)
      run (rest.dropWhile (fun d => !isDelimChar d))
        (pushTop (classifyAtom (String.mk tok)) frames)
  termination_by cs _ => cs.length
  decreasing_by
  · simp
  · simp
  · simp
  · simp
  · have := scanString_snd_length_le rest
    simp
    omega
  · simp
  · have := (List.dropWhile_sublist (l := rest) (p := fun d => !isDelimChar d)).length_le
    simp
    omega

/-- `parseSExpression(input)`: scan the whole text starting from a
single empty root frame. -/
def parseSExpression (s : String) : List SExpr := run s.data [[]]

/-- Fuel-indexed variant of the scan loop: one unit of fuel per loop
iteration, none when fuel runs out with input remaining.  Used to state
that the loop always terminates within one iteration per character. -/
def runFuel : ℕ → List Char → List (List SExpr) → Option (List SExpr)
  | _, [], frames => some (finishFrames frames)
  | 0, _ :: _, _ => none
  | fuel + 1, c :: rest, frames =>
    if c = '(' then runFuel fuel rest ([] :: frames)
    else if c = ')' then
      match frames with
      | [] => runFuel fuel rest []
      | [f] => runFuel fuel rest [f]
      | f :: g :: gs => runFuel fuel rest ((g ++ [SExpr.list f]) :: gs)
    else if c = '\"' then
      let p := scanString rest
      runFuel fuel p.2 (pushTop (.str (String.mk p.1)) frames)
    else if isWsChar c then runFuel fuel rest frames
    else
      let tok := c :: rest.takeWhile (fun d => !isDelimChar d)
      runFuel fuel (rest.dropWhile (fun d => !isDelimChar d))
        (pushTop (classifyAtom (String.mk tok)) frames)

-- ### Rendering numbers back to text: a model of JavaScript String(number)

/-- Decimal digit characters of a natural number, most significant
first; the fuel argument dominates the digit count. -/
def natToCharsAux : ℕ → ℕ → List Char
  | 0, _ => []
  | fuel + 1, m =>
    if m < 10 then [Char.ofNat ('0'.toNat + m)]
    else natToCharsAux fuel (m / 10) ++ [Char.ofNat ('0'.toNat + m % 10)]

/-- Decimal digit characters of a natural number, most significant
first. -/
def natToChars (n : ℕ) : List Char := natToCharsAux (n + 1) n

/-- The smallest decimal exponent k with d dividing 10 to the k, found
by bounded search (such a k, when it exists, is below d). -/
def decExpOf (d : ℕ) : ℕ :=
  ((List.range (d + 1)).find? (fun k => 10 ^ k % d == 0)).getD 0

/-- Render the nonnegative value n / d as a decimal string, placing a
decimal point when d is not 1.  Faithful for every value a JavaScript
float can hold (denominators are powers of two, hence divide a power of
ten); never uses exponent notation. -/
def posToChars (n d : ℕ) : List Char :=
  let k := decExpOf d
  let t := n * 10 ^ k / d
  let ds := natToChars t
  if k = 0 then ds
  else
    let ds := List.replicate (k + 1 - ds.length) '0' ++ ds
    ds.take (ds.length - k) ++ '.' :: ds.drop (ds.length - k)

/-- Model of JavaScript String(number) on the rationals a float can
hold: sign followed by plain decimal digits. -/
def numToString (q : ℚ) : String :=
  String.mk ((if q < 0 then ['-'] else []) ++ posToChars q.num.natAbs q.den)

-- ### The serializer (serializeSExpression)

/-- The quoting condition of the serializer: the string contains a
space, parenthesis or double quote. -/
def needsQuote (s : String) : Bool :=
  s.data.contains ' ' || s.data.contains '(' || s.data.contains ')' || s.data.contains '\"'

/-- The escaping applied inside a quoted string: double every
backslash, then escape every double quote (the two global replaces of
the source, which cannot interfere with each other). -/
def escapeChars (cs : List Char) : List Char :=
  cs.flatMap fun c =>
    if c = '\\' then ['\\', '\\'] else if c = '\"' then ['\\', '\"'] else [c]

/-- A run of i tab characters (the multi-line child indentation). -/
def tabs (i : ℕ) : String := String.mk (List.replicate i '\t')

/-- Model of Array.join: the parts separated by the separator. -/
def joinSep (sep : String) : List String → String
  | [] => ""
  | [x] => x
  | x :: y :: xs => x ++ sep ++ joinSep sep (y :: xs)

mutual

/-- `serializeSExpression(expr, indent)`: atoms render to their token
text; a list renders on one line when simple and short, and otherwise
multi-line with nested lists on indented lines of their own. -/
def serializeSExpression : SExpr → ℕ → String
  | .str s, _ =>
    if needsQuote s then "\"" ++ String.mk (escapeChars s.data) ++ "\"" else s
  | .num q, _ => numToString q
  | .list xs, indent =>
    match xs with
    | [] => "()"
    | tag :: children =>
      let simple := children.all fun c =>
        match c with
        | .list l => decide (l.length ≤ 3)
        | _ => true
      let multi := "(" ++ serializeSExpression tag (indent + 1)
        ++ serializeMultiBody children (indent + 1) ++ ")"
      if simple ∧ children.length ≤ 4 then
        let parts := serializeParts (tag :: children) (indent + 1)
        let oneLine := "(" ++ joinSep " " parts ++ ")"
        if oneLine.length < 100 then oneLine else multi
      else multi

/-- The parts of the one-line rendering: each element serialized at the
deeper indent. -/
def serializeParts : List SExpr → ℕ → List String
  | [], _ => []
  | x :: xs, i => serializeSExpression x i :: serializeParts xs i

/-- The children portion of the multi-line rendering: nested lists each
on a fresh indented line, scalars appended after a space. -/
def serializeMultiBody : List SExpr → ℕ → String
  | [], _ => ""
  | c :: cs, i =>
    (match c with
      | .list _ => "\n" ++ tabs i ++ serializeSExpression c i
      | _ => " " ++ serializeSExpression c i) ++ serializeMultiBody cs i

end

-- ### JavaScript value coercions and the tree query layer

/-- A TypeScript number that may be NaN: none models NaN. -/
abbrev JsNum := Option ℚ

mutual

/-- Model of JavaScript String(x) on a node: strings unchanged, numbers
rendered, arrays joined with commas. -/
def toStr : SExpr → String
  | .str s => s
  | .num q => numToString q
  | .list xs => String.intercalate "," (toStrList xs)

def toStrList : List SExpr → List String
  | [] => []
  | x :: xs => toStr x :: toStrList xs

end

/-- Model of JavaScript Number(x) on a node: numbers unchanged, strings
through the numeric parse, arrays through their string form. -/
def toNum : SExpr → JsNum
  | .num q => some q
  | .str s => jsStrToNum s
  | .list xs => jsStrToNum (toStr (.list xs))

/-- `String(l[i])`: undefined stringifies to "undefined". -/
def elemStr (l : List SExpr) (i : ℕ) : String :=
  match (l.drop i).head? with
  | some v => toStr v
  | none => "undefined"

/-- `Number(l[i])`: undefined coerces to NaN. -/
def elemNum (l : List SExpr) (i : ℕ) : JsNum :=
  match (l.drop i).head? with
  | some v => toNum v
  | none => none

/-- `findExpr(expr, tag)`: first immediate child that is a list whose
head is the tag string. -/
def findExpr (expr : List SExpr) (tag : String) : Option (List SExpr) :=
  expr.findSome? fun child =>
    match child with
    | .list l => if l.head? = some (.str tag) then some l else none
    | _ => none

/-- `findAllExpr(expr, tag)`: all immediate children matching the same
predicate, in document order. -/
def findAllExpr (expr : List SExpr) (tag : String) : List (List SExpr) :=
  expr.filterMap fun child =>
    match child with
    | .list l => if l.head? = some (.str tag) then some l else none
    | _ => none

/-- `getStringValue(expr, tag)`: the stringified second element of the
found tagged child, when it has one. -/
def getStringValue (expr : List SExpr) (tag : String) : Option String :=
  match findExpr expr tag with
  | some (_ :: v :: _) => some (toStr v)
  | _ => none

/-- `getNumberValue(expr, tag)`: the numerified second element of the
found tagged child, when it has one (the value itself may be NaN). -/
def getNumberValue (expr : List SExpr) (tag : String) : Option JsNum :=
  match findExpr expr tag with
  | some (_ :: v :: _) => some (toNum v)
  | _ => none

/-- Result of `getXY`: coordinates plus optional trailing rotation. -/
structure XY where
  x : JsNum
  y : JsNum
  rotation : Option JsNum
  deriving Repr, DecidableEq

/-- `getXY(expr, tag)`: positional 2- or 3-component coordinate from a
tagged child of at least three elements. -/
def getXY (expr : List SExpr) (tag : String := "at") : Option XY :=
  match findExpr expr tag with
  | some (_ :: a :: b :: rest) =>
    some { x := toNum a, y := toNum b,
           rotation := match rest with
             | r :: _ => some (toNum r)
             | [] => none }
  | _ => none

/-- Result of `getSize`. -/
structure WH where
  w : JsNum
  h : JsNum
  deriving Repr, DecidableEq

/-- `getSize(expr, tag)`: positional width/height pair. -/
def getSize (expr : List SExpr) (tag : String := "size") : Option WH :=
  match findExpr expr tag with
  | some (_ :: a :: b :: _) => some { w := toNum a, h := toNum b }
  | _ => none

/-- `at?.x ?? 0` on an optional coordinate. -/
def atX (p : Option XY) : JsNum :=
  match p with
  | some xy => xy.x
  | none => some 0

/-- `at?.y ?? 0` on an optional coordinate. -/
def atY (p : Option XY) : JsNum :=
  match p with
  | some xy => xy.y
  | none => some 0

/-- `at?.rotation ?? 0` on an optional coordinate. -/
def atRot (p : Option XY) : JsNum :=
  match p with
  | some xy => xy.rotation.getD (some 0)
  | none => some 0

/-- A JavaScript object used as a string-keyed record, modelled as the
ordered list of assignments; a later assignment to the same key wins on
lookup. -/
def recSet (m : List (String × α)) (k : String) (v : α) : List (String × α) :=
  m ++ [(k, v)]

/-- Lookup in the assignment list: the most recent binding of the key. -/
def recGet (m : List (String × α)) (k : String) : Option α :=
  (m.reverse.find? fun p => p.1 = k).map Prod.snd

-- ### Schematic model (schematicParser.ts types)

/-- A 2D point whose coordinates came through Number(). -/
structure PointQ where
  x : JsNum
  y : JsNum
  deriving Repr, DecidableEq

structure SchematicPin where
  x : JsNum
  y : JsNum
  name : Option String
  number : Option String
  deriving Repr, DecidableEq

structure SymbolProperty where
  value : String
  x : JsNum
  y : JsNum
  rotation : JsNum
  visible : Bool
  fontSize : JsNum
  deriving Repr, DecidableEq

structure SchematicElement where
  id : String
  libId : String
  reference : String
  value : String
  footprint : String
  x : JsNum
  y : JsNum
  rotation : JsNum
  mirror : String
  unit : JsNum
  convert : JsNum
  pins : List SchematicPin
  properties : List (String × SymbolProperty)
  raw : List SExpr
  deriving Repr, DecidableEq

structure Wire where
  startX : JsNum
  startY : JsNum
  endX : JsNum
  endY : JsNum
  deriving Repr, DecidableEq

structure Junction where
  x : JsNum
  y : JsNum
  deriving Repr, DecidableEq

structure Label where
  text : String
  x : JsNum
  y : JsNum
  rotation : JsNum
  ltype : String
  deriving Repr, DecidableEq

structure NoConnect where
  x : JsNum
  y : JsNum
  deriving Repr, DecidableEq

structure SheetPin where
  name : String
  ptype : String
  x : JsNum
  y : JsNum
  rotation : JsNum
  deriving Repr, DecidableEq

structure Sheet where
  x : JsNum
  y : JsNum
  width : JsNum
  height : JsNum
  name : String
  fileName : String
  uuid : String
  pins : List SheetPin
  deriving Repr, DecidableEq

structure Bus where
  startX : JsNum
  startY : JsNum
  endX : JsNum
  endY : JsNum
  deriving Repr, DecidableEq

structure BusEntry where
  x : JsNum
  y : JsNum
  sizeW : JsNum
  sizeH : JsNum
  deriving Repr, DecidableEq

/-- A library-symbol graphic primitive; unused optional fields stay
none, mirroring the TypeScript optional members. -/
structure LibGraphic where
  gtype : String
  points : Option (List PointQ) := none
  gstart : Option PointQ := none
  gend : Option PointQ := none
  center : Option PointQ := none
  radius : Option JsNum := none
  arcStart : Option PointQ := none
  arcMid : Option PointQ := none
  arcEnd : Option PointQ := none
  fillType : String
  strokeWidth : JsNum
  deriving Repr, DecidableEq

structure LibPin where
  name : String
  number : String
  x : JsNum
  y : JsNum
  length : JsNum
  rotation : JsNum
  ptype : String
  graphicStyle : String
  deriving Repr, DecidableEq

structure LibSymbolUnit where
  unitNum : ℕ
  convertNum : ℕ
  graphics : List LibGraphic
  pins : List LibPin
  deriving Repr, DecidableEq

structure LibSymbol where
  name : String
  pinNamesOffset : ℚ
  showPinNames : Bool
  showPinNumbers : Bool
  units : List LibSymbolUnit
  deriving Repr, DecidableEq

structure SchematicData where
  version : JsNum
  generator : String
  uuid : String
  paperSize : String
  symbols : List SchematicElement
  wires : List Wire
  junctions : List Junction
  labels : List Label
  noConnects : List NoConnect
  sheets : List Sheet
  buses : List Bus
  busEntries : List BusEntry
  libSymbols : List (String × LibSymbol)
  raw : List SExpr
  deriving Repr, DecidableEq

-- ### Schematic extractor (KicadSchematicParser)

namespace KicadSchematicParser

/-- The sub-symbol name suffix regex: underscore, digit run, underscore,
digit run, anchored at the end of the name. -/
def matchUnitConvert (s : String) : Option (ℕ × ℕ) :=
  let cs := s.data.reverse
  let d2 := cs.takeWhile Char.isDigit
  let r2 := cs.dropWhile Char.isDigit
  match d2, r2 with
  | [], _ => none
  | _, '_' :: r3 =>
    let d1 := r3.takeWhile Char.isDigit
    let r4 := r3.dropWhile Char.isDigit
    match d1, r4 with
    | [], _ => none
    | _, '_' :: _ => some (charsToNat d1.reverse, charsToNat d2.reverse)
    | _, _ => none
  | _, _ => none

/-- `getFillType`: the type child of the fill child, defaulting to
none-as-text. -/
def getFillType (expr : List SExpr) : String :=
  match findExpr expr "fill" with
  | none => "none"
  | some fill =>
    match findExpr fill "type" with
    | none => "none"
    | some t => elemStr t 1

/-- `getStrokeWidth`: the width child of the stroke child, defaulting
to 0. -/
def getStrokeWidth (expr : List SExpr) : JsNum :=
  match findExpr expr "stroke" with
  | none => some 0
  | some stroke =>
    match findExpr stroke "width" with
    | none => some 0
    | some w => elemNum w 1

/-- The xy children of a pts list as points. -/
def ptsPoints (pts : List SExpr) : List PointQ :=
  (findAllExpr pts "xy").map fun xy => { x := elemNum xy 1, y := elemNum xy 2 }

/-- `parseLibGraphics`: polylines, then rectangles, then circles, then
arcs, each with fill type and stroke width. -/
def parseLibGraphics (expr : List SExpr) : List LibGraphic :=
  ((findAllExpr expr "polyline").map fun pl =>
    let points := match findExpr pl "pts" with
      | some pts => ptsPoints pts
      | none => []
    { gtype := "polyline", points := some points,
      fillType := getFillType pl, strokeWidth := getStrokeWidth pl })
  ++ ((findAllExpr expr "rectangle").map fun rect =>
    let s := getXY rect "start"
    let e := getXY rect "end"
    { gtype := "rectangle",
      gstart := some (match s with
        | some p => { x := p.x, y := p.y }
        | none => { x := some 0, y := some 0 }),
      gend := some (match e with
        | some p => { x := p.x, y := p.y }
        | none => { x := some 0, y := some 0 }),
      fillType := getFillType rect, strokeWidth := getStrokeWidth rect })
  ++ ((findAllExpr expr "circle").map fun circ =>
    let c := getXY circ "center"
    { gtype := "circle",
      center := some (match c with
        | some p => { x := p.x, y := p.y }
        | none => { x := some 0, y := some 0 }),
      radius := some ((getNumberValue circ "radius").getD (some 0)),
      fillType := getFillType circ, strokeWidth := getStrokeWidth circ })
  ++ ((findAllExpr expr "arc").map fun arc =>
    let s := getXY arc "start"
    let m := getXY arc "mid"
    let e := getXY arc "end"
    { gtype := "arc",
      arcStart := some (match s with
        | some p => { x := p.x, y := p.y }
        | none => { x := some 0, y := some 0 }),
      arcMid := some (match m with
        | some p => { x := p.x, y := p.y }
        | none => { x := some 0, y := some 0 }),
      arcEnd := some (match e with
        | some p => { x := p.x, y := p.y }
        | none => { x := some 0, y := some 0 }),
      fillType := getFillType arc, strokeWidth := getStrokeWidth arc })

/-- `parseLibPins`: pin type and style positionally, anchor, length,
name and number from tagged children. -/
def parseLibPins (expr : List SExpr) : List LibPin :=
  (findAllExpr expr "pin").map fun pin =>
    let at0 := getXY pin "at"
    { name := match findExpr pin "name" with
        | some (_ :: v :: _) => toStr v
        | _ => ""
      number := match findExpr pin "number" with
        | some (_ :: v :: _) => toStr v
        | _ => ""
      x := atX at0
      y := atY at0
      length := match findExpr pin "length" with
        | some (_ :: v :: _) => toNum v
        | _ => some (127 / 50 : ℚ)
      rotation := atRot at0
      ptype := match pin with
        | _ :: v :: _ => toStr v
        | _ => "passive"
      graphicStyle := match pin with
        | _ :: _ :: v :: _ => toStr v
        | _ => "line" }

/-- `parseLibSymbols`: the catalog of library symbols with their
sub-symbol units. -/
def parseLibSymbols (root : List SExpr) : List (String × LibSymbol) :=
  match findExpr root "lib_symbols" with
  | none => []
  | some libs =>
    (findAllExpr libs "symbol").foldl (fun result symExpr =>
      match symExpr with
      | _ :: nm :: _ =>
        let name := toStr nm
        let pinNames := findExpr symExpr "pin_names"
        let pinNamesOffset : ℚ := match pinNames with
          | none => 1
          | some pn =>
            match findExpr pn "offset" with
            | none => 1
            | some off =>
              match elemNum off 1 with
              | some q => if q = 0 then 0 else q
              | none => 0
        let showPinNames := match pinNames with
          | none => true
          | some pn => ¬ pn.contains (SExpr.str "hide")
        let showPinNumbers := match findExpr symExpr "pin_numbers" with
          | none => true
          | some pnum => ¬ pnum.contains (SExpr.str "hide")
        let units := (findAllExpr symExpr "symbol").foldl (fun us subSym =>
          match subSym with
          | _ :: snm :: _ =>
            let subName := toStr snm
            let unitNum := match matchUnitConvert subName with
              | some p => p.1
              | none => 0
            let convertNum := match matchUnitConvert subName with
              | some p => p.2
              | none => 1
            us ++ [{ unitNum, convertNum,
                     graphics := parseLibGraphics subSym,
                     pins := parseLibPins subSym : LibSymbolUnit }]
          | _ => us) []
        recSet result name
          { name, pinNamesOffset, showPinNames, showPinNumbers, units }
      | _ => result) []

end KicadSchematicParser

namespace KicadSchematicParser

/-- `parseSymbols`: placed symbols are the top-level symbol lists
carrying a lib_id child; properties and instance pins are gathered per
symbol. -/
def parseSymbols (root : List SExpr) : List SchematicElement :=
  (findAllExpr root "symbol").foldl (fun symbols sexpr =>
    match findExpr sexpr "lib_id" with
    | none => symbols
    | some libId =>
      let at0 := getXY sexpr "at"
      let mirrorVal := match findExpr sexpr "mirror" with
        | some (_ :: v :: _) => toStr v
        | _ => ""
      let uuid := (getStringValue sexpr "uuid").getD ""
      let unit := (getNumberValue sexpr "unit").getD (some 1)
      let convert := (getNumberValue sexpr "convert").getD (some 1)
      let properties := (findAllExpr sexpr "property").foldl (fun m prop =>
        match prop with
        | _ :: k :: v :: _ =>
          let propAt := getXY prop "at"
          let effects := findExpr prop "effects"
          let visible := match effects with
            | none => true
            | some eff =>
              (! eff.contains (SExpr.str "hide")) &&
              (match findExpr eff "hide" with
                | some (_ :: hv :: _) => toStr hv != "yes"
                | _ => true)
          let fontSize : JsNum := match effects with
            | none => some (127 / 100 : ℚ)
            | some eff =>
              match findExpr eff "font" with
              | none => some (127 / 100 : ℚ)
              | some font =>
                match getSize font "size" with
                | some sz => sz.h
                | none => some (127 / 100 : ℚ)
          recSet m (toStr k)
            { value := toStr v
              x := match propAt with
                | some p => p.x
                | none => atX at0
              y := match propAt with
                | some p => p.y
                | none => atY at0
              rotation := match propAt with
                | some p => p.rotation.getD (some 0)
                | none => some 0
              visible, fontSize }
        | _ => m) []
      let pins := (findAllExpr sexpr "pin").map fun pin =>
        let pinAt := getXY pin "at"
        { x := atX pinAt
          y := atY pinAt
          name := getStringValue pin "name"
          number := getStringValue pin "number" : SchematicPin }
      symbols ++ [{
        id := uuid
        libId := elemStr libId 1
        reference := ((recGet properties "Reference").map (·.value)).getD ""
        value := ((recGet properties "Value").map (·.value)).getD ""
        footprint := ((recGet properties "Footprint").map (·.value)).getD ""
        x := atX at0
        y := atY at0
        rotation := atRot at0
        mirror := mirrorVal
        unit, convert, pins, properties
        raw := sexpr }]) []

/-- One wire list to a wire record: the first and the second xy entry
of the pts child become start and end. -/
def wireOf (wire : List SExpr) : Wire :=
  match findExpr wire "pts" with
  | none => { startX := some 0, startY := some 0, endX := some 0, endY := some 0 }
  | some pts =>
    let xyExprs := findAllExpr pts "xy"
    { startX := match xyExprs[0]? with
        | some l => elemNum l 1
        | none => some 0
      startY := match xyExprs[0]? with
        | some l => elemNum l 2
        | none => some 0
      endX := match xyExprs[1]? with
        | some l => elemNum l 1
        | none => some 0
      endY := match xyExprs[1]? with
        | some l => elemNum l 2
        | none => some 0 }

/-- `parseWires`: one wire record per wire element. -/
def parseWires (root : List SExpr) : List Wire :=
  (findAllExpr root "wire").map wireOf

/-- `parseJunctions`. -/
def parseJunctions (root : List SExpr) : List Junction :=
  (findAllExpr root "junction").map fun j =>
    let at0 := getXY j "at"
    { x := atX at0, y := atY at0 }

/-- One label list to a model label of the given kind. -/
def labelOf (kind : String) (l : List SExpr) : Label :=
  let at0 := getXY l "at"
  { text := match l with
      | _ :: v :: _ => toStr v
      | _ => ""
    x := atX at0, y := atY at0, rotation := atRot at0, ltype := kind }

/-- `parseLabels`: plain, then global, then hierarchical labels. -/
def parseLabels (root : List SExpr) : List Label :=
  ((findAllExpr root "label").map (labelOf "net"))
  ++ ((findAllExpr root "global_label").map (labelOf "global"))
  ++ ((findAllExpr root "hierarchical_label").map (labelOf "hierarchical"))

/-- `parseNoConnects`. -/
def parseNoConnects (root : List SExpr) : List NoConnect :=
  (findAllExpr root "no_connect").map fun nc =>
    let at0 := getXY nc "at"
    { x := atX at0, y := atY at0 }

/-- `parseSheets`: anchor, size, both property-name generations, sheet
pins. -/
def parseSheets (root : List SExpr) : List Sheet :=
  (findAllExpr root "sheet").map fun sh =>
    let at0 := getXY sh "at"
    let size := getSize sh "size"
    let uuid := (getStringValue sh "uuid").getD ""
    let properties := (findAllExpr sh "property").foldl (fun m prop =>
      match prop with
      | _ :: k :: v :: _ => recSet m (toStr k) (toStr v)
      | _ => m) []
    let pins := (findAllExpr sh "pin").map fun pin =>
      let pinAt := getXY pin "at"
      { name := match pin with
          | _ :: v :: _ => toStr v
          | _ => ""
        ptype := match pin with
          | _ :: _ :: v :: _ => toStr v
          | _ => "passive"
        x := atX pinAt, y := atY pinAt, rotation := atRot pinAt : SheetPin }
    { x := atX at0
      y := atY at0
      width := match size with
        | some sz => sz.w
        | none => some 10
      height := match size with
        | some sz => sz.h
        | none => some 10
      name := ((recGet properties "Sheetname").orElse
        (fun _ => recGet properties "Sheet name")).getD ""
      fileName := ((recGet properties "Sheetfile").orElse
        (fun _ => recGet properties "Sheet file")).getD ""
      uuid, pins }

/-- `parseBuses`: same two-point selection as wires. -/
def parseBuses (root : List SExpr) : List Bus :=
  (findAllExpr root "bus").map fun bus =>
    match findExpr bus "pts" with
    | none => { startX := some 0, startY := some 0, endX := some 0, endY := some 0 }
    | some pts =>
      let xyExprs := findAllExpr pts "xy"
      { startX := match xyExprs[0]? with
          | some l => elemNum l 1
          | none => some 0
        startY := match xyExprs[0]? with
          | some l => elemNum l 2
          | none => some 0
        endX := match xyExprs[1]? with
          | some l => elemNum l 1
          | none => some 0
        endY := match xyExprs[1]? with
          | some l => elemNum l 2
          | none => some 0 }

/-- `parseBusEntries`. -/
def parseBusEntries (root : List SExpr) : List BusEntry :=
  (findAllExpr root "bus_entry").map fun be =>
    let at0 := getXY be "at"
    let size := getSize be "size"
    { x := atX at0
      y := atY at0
      sizeW := match size with
        | some sz => sz.w
        | none => some (127 / 50 : ℚ)
      sizeH := match size with
        | some sz => sz.h
        | none => some (127 / 50 : ℚ) }

/-- The model built from a root list that passed the tag check. -/
def extract (root : List SExpr) : SchematicData :=
  { version := (getNumberValue root "version").getD (some 0)
    generator := (getStringValue root "generator").getD "unknown"
    uuid := (getStringValue root "uuid").getD ""
    paperSize := match findExpr root "paper" with
      | some paper => elemStr paper 1
      | none => "A4"
    symbols := parseSymbols root
    wires := parseWires root
    junctions := parseJunctions root
    labels := parseLabels root
    noConnects := parseNoConnects root
    sheets := parseSheets root
    buses := parseBuses root
    busEntries := parseBusEntries root
    libSymbols := parseLibSymbols root
    raw := root }

/-- `KicadSchematicParser.parse`: tokenize, check that the first
top-level item is a list headed by the kicad_sch tag, then extract;
a mismatch is the only error. -/
def parse (content : String) : Except String SchematicData :=
  match parseSExpression content with
  | SExpr.list (SExpr.str t :: rest) :: _ =>
    if t = "kicad_sch" then
      .ok (extract (SExpr.str t :: rest))
    else
      .error "Invalid KiCad schematic file: root expression must be kicad_sch"
  | _ => .error "Invalid KiCad schematic file: root expression must be kicad_sch"

end KicadSchematicParser

-- ### Board model (pcbParser.ts types)

/-- NaN-propagating arithmetic on TypeScript numbers. -/
def jsSub (a b : JsNum) : JsNum :=
  match a, b with
  | some x, some y => some (x - y)
  | _, _ => none

/-- NaN-propagating multiplication. -/
def jsMul (a b : JsNum) : JsNum :=
  match a, b with
  | some x, some y => some (x * y)
  | _, _ => none

/-- NaN-propagating addition. -/
def jsAdd (a b : JsNum) : JsNum :=
  match a, b with
  | some x, some y => some (x + y)
  | _, _ => none

structure PcbLayer where
  id : JsNum
  name : String
  ltype : String
  deriving Repr, DecidableEq

structure PcbTrack where
  startX : JsNum
  startY : JsNum
  endX : JsNum
  endY : JsNum
  width : JsNum
  layer : String
  net : JsNum
  deriving Repr, DecidableEq

structure PcbVia where
  x : JsNum
  y : JsNum
  size : JsNum
  drill : JsNum
  layers : List String
  net : JsNum
  deriving Repr, DecidableEq

structure PcbPad where
  number : String
  ptype : String
  shape : String
  x : JsNum
  y : JsNum
  rotation : JsNum
  sizeX : JsNum
  sizeY : JsNum
  drill : JsNum
  layers : List String
  net : JsNum
  netName : String
  roundrectCorner : JsNum
  deriving Repr, DecidableEq

/-- A footprint graphic; the circle keeps the squared radius (the
source applies a square root, which has no exact rational image and is
inspected by no claim). -/
structure FpGraphic where
  gtype : String
  layer : String
  width : JsNum
  startX : Option JsNum := none
  startY : Option JsNum := none
  endX : Option JsNum := none
  endY : Option JsNum := none
  centerX : Option JsNum := none
  centerY : Option JsNum := none
  radiusSq : Option JsNum := none
  arcStartX : Option JsNum := none
  arcStartY : Option JsNum := none
  arcMidX : Option JsNum := none
  arcMidY : Option JsNum := none
  arcEndX : Option JsNum := none
  arcEndY : Option JsNum := none
  points : Option (List PointQ) := none
  fill : Option String := none
  deriving Repr, DecidableEq

structure FpText where
  ttype : String
  text : String
  x : JsNum
  y : JsNum
  rotation : JsNum
  layer : String
  fontSize : JsNum
  visible : Bool
  deriving Repr, DecidableEq

structure PcbFootprint where
  reference : String
  value : String
  libId : String
  x : JsNum
  y : JsNum
  rotation : JsNum
  layer : String
  pads : List PcbPad
  graphics : List FpGraphic
  texts : List FpText
  raw : List SExpr
  deriving Repr, DecidableEq

structure BoardLine where
  gtype : String
  startX : JsNum
  startY : JsNum
  endX : JsNum
  endY : JsNum
  midX : Option JsNum := none
  midY : Option JsNum := none
  layer : String
  width : JsNum
  points : Option (List PointQ) := none
  fill : Option String := none
  deriving Repr, DecidableEq

structure PcbNet where
  id : JsNum
  name : String
  deriving Repr, DecidableEq

structure PcbZone where
  net : JsNum
  netName : String
  layer : String
  points : List PointQ
  deriving Repr, DecidableEq

structure PcbData where
  version : JsNum
  generator : String
  layers : List PcbLayer
  nets : List PcbNet
  footprints : List PcbFootprint
  tracks : List PcbTrack
  vias : List PcbVia
  boardOutline : List BoardLine
  graphicItems : List BoardLine
  zones : List PcbZone
  raw : List SExpr
  deriving Repr, DecidableEq

-- ### Board extractor (KicadPcbParser)

namespace KicadPcbParser

/-- `parseLayers`: entries of the layers child that are lists of at
least three elements, read positionally. -/
def parseLayers (root : List SExpr) : List PcbLayer :=
  match findExpr root "layers" with
  | none => []
  | some layersExpr =>
    (layersExpr.drop 1).filterMap fun l =>
      match l with
      | .list (a :: b :: c :: _) =>
        some { id := toNum a, name := toStr b, ltype := toStr c }
      | _ => none

/-- `parseNets`: the flat id-to-name net table. -/
def parseNets (root : List SExpr) : List PcbNet :=
  (findAllExpr root "net").map fun n =>
    { id := elemNum n 1
      name := match n with
        | _ :: _ :: v :: _ => toStr v
        | _ => "" }

/-- Model of String.endsWith over the character list. -/
def strEndsWith (s suffix : String) : Bool := suffix.data.isSuffixOf s.data

/-- One pad-layers entry: the copper wildcard expands against the layer
table in table order; the mask and paste wildcards expand to fixed
front/back pairs; anything else stands for itself. -/
def expandOneLayer (pcbLayers : List PcbLayer) (entry : SExpr) : List String :=
  let lname := toStr entry
  if lname = "*.Cu" then
    (pcbLayers.filter fun l => strEndsWith l.name ".Cu").map (·.name)
  else if lname = "*.Mask" then ["F.Mask", "B.Mask"]
  else if lname = "*.Paste" then ["F.Paste", "B.Paste"]
  else [lname]

/-- A single pad list to a pad record. -/
def parsePad (pcbLayers : List PcbLayer) (pad : List SExpr) : PcbPad :=
  let at0 := getXY pad "at"
  let size := getSize pad "size"
  let layers := match findExpr pad "layers" with
    | none => []
    | some layersExpr => (layersExpr.drop 1).flatMap (expandOneLayer pcbLayers)
  { number := match pad with
      | _ :: v :: _ => toStr v
      | _ => ""
    ptype := match pad with
      | _ :: _ :: v :: _ => toStr v
      | _ => "smd"
    shape := match pad with
      | _ :: _ :: _ :: v :: _ => toStr v
      | _ => "rect"
    x := atX at0
    y := atY at0
    rotation := atRot at0
    sizeX := match size with
      | some sz => sz.w
      | none => some 1
    sizeY := match size with
      | some sz => sz.h
      | none => some 1
    drill := match findExpr pad "drill" with
      | some (_ :: v :: _) => toNum v
      | _ => some 0
    layers
    net := match findExpr pad "net" with
      | some (_ :: v :: _) => toNum v
      | _ => some 0
    netName := match findExpr pad "net" with
      | some (_ :: _ :: v :: _) => toStr v
      | _ => ""
    roundrectCorner := match findExpr pad "roundrect_rratio" with
      | some (_ :: v :: _) => toNum v
      | _ => some (1 / 4 : ℚ) }

/-- `parsePads`: every pad child of the footprint. -/
def parsePads (fp : List SExpr) (pcbLayers : List PcbLayer) : List PcbPad :=
  (findAllExpr fp "pad").map (parsePad pcbLayers)

/-- `getFillType` of the board extractor. -/
def getFillType (expr : List SExpr) : String :=
  match findExpr expr "fill" with
  | none => "none"
  | some fill =>
    match findExpr fill "type" with
    | none => "none"
    | some t => elemStr t 1

/-- `getItemWidth`: a stroke width child wins (0 or NaN replaced by
0.1); otherwise the flat width scalar; otherwise 0.1. -/
def getItemWidth (expr : List SExpr) : JsNum :=
  let flat : JsNum := match getNumberValue expr "width" with
    | some n => n
    | none => some (1 / 10 : ℚ)
  match findExpr expr "stroke" with
  | some stroke =>
    match findExpr stroke "width" with
    | some (_ :: v :: _) =>
      match toNum v with
      | some q => if q = 0 then some (1 / 10 : ℚ) else some q
      | none => some (1 / 10 : ℚ)
    | _ => flat
  | none => flat

/-- `parseFpGraphics`: lines, rectangles, circles, arcs, polygons of a
footprint, in that order. -/
def parseFpGraphics (fp : List SExpr) : List FpGraphic :=
  ((findAllExpr fp "fp_line").map fun item =>
    let s := getXY item "start"
    let e := getXY item "end"
    { gtype := "line", layer := (getStringValue item "layer").getD "",
      width := getItemWidth item,
      startX := some (atX s), startY := some (atY s),
      endX := some (atX e), endY := some (atY e) })
  ++ ((findAllExpr fp "fp_rect").map fun item =>
    let s := getXY item "start"
    let e := getXY item "end"
    { gtype := "rect", layer := (getStringValue item "layer").getD "",
      width := getItemWidth item, fill := some (getFillType item),
      startX := some (atX s), startY := some (atY s),
      endX := some (atX e), endY := some (atY e) })
  ++ ((findAllExpr fp "fp_circle").map fun item =>
    let c := getXY item "center"
    let e := getXY item "end"
    let cx := atX c
    let cy := atY c
    let ex := atX e
    let ey := atY e
    { gtype := "circle", layer := (getStringValue item "layer").getD "",
      width := getItemWidth item, fill := some (getFillType item),
      centerX := some cx, centerY := some cy,
      radiusSq := some (jsAdd (jsMul (jsSub ex cx) (jsSub ex cx))
        (jsMul (jsSub ey cy) (jsSub ey cy))) })
  ++ ((findAllExpr fp "fp_arc").map fun item =>
    let s := getXY item "start"
    let m := getXY item "mid"
    let e := getXY item "end"
    { gtype := "arc", layer := (getStringValue item "layer").getD "",
      width := getItemWidth item,
      arcStartX := some (atX s), arcStartY := some (atY s),
      arcMidX := some (atX m), arcMidY := some (atY m),
      arcEndX := some (atX e), arcEndY := some (atY e) })
  ++ ((findAllExpr fp "fp_poly").map fun item =>
    let points := match findExpr item "pts" with
      | some pts => KicadSchematicParser.ptsPoints pts
      | none => []
    { gtype := "poly", layer := (getStringValue item "layer").getD "",
      width := getItemWidth item, fill := some (getFillType item),
      points := some points })

/-- `parseFootprints`: footprint instances with properties, legacy
fp_text reference/value seeding, pads and graphics. -/
def parseFootprints (root : List SExpr) (pcbLayers : List PcbLayer) : List PcbFootprint :=
  (findAllExpr root "footprint").map fun fp =>
    let libId := match fp with
      | _ :: v :: _ => toStr v
      | _ => ""
    let at0 := getXY fp "at"
    let layer := (getStringValue fp "layer").getD "F.Cu"
    let properties := (findAllExpr fp "property").foldl (fun m prop =>
      match prop with
      | _ :: k :: v :: _ => recSet m (toStr k) (toStr v)
      | _ => m) []
    let st := (findAllExpr fp "fp_text").foldl (fun st fpText =>
      match fpText with
      | _ :: t :: v :: _ =>
        let textType := toStr t
        let textValue := toStr v
        let reference := if textType = "reference" then
            (if st.1 = "" then textValue else st.1) else st.1
        let value := if textType = "value" then
            (if st.2.1 = "" then textValue else st.2.1) else st.2.1
        let textAt := getXY fpText "at"
        let textLayer := (getStringValue fpText "layer").getD layer
        let effects := findExpr fpText "effects"
        let fontSize : JsNum := match effects with
          | none => some 1
          | some eff =>
            match findExpr eff "font" with
            | none => some 1
            | some font =>
              match getSize font "size" with
              | some sz => sz.h
              | none => some 1
        let visible := match effects with
          | none => true
          | some eff => ! eff.contains (SExpr.str "hide")
        (reference, value, st.2.2 ++ [{
          ttype := textType, text := textValue,
          x := atX textAt, y := atY textAt, rotation := atRot textAt,
          layer := textLayer, fontSize, visible : FpText }])
      | _ => st)
      (((recGet properties "Reference").getD "",
        ((recGet properties "Value").getD "", ([] : List FpText))))
    { reference := st.1
      value := st.2.1
      libId
      x := atX at0
      y := atY at0
      rotation := atRot at0
      layer
      pads := parsePads fp pcbLayers
      graphics := parseFpGraphics fp
      texts := st.2.2
      raw := fp }

/-- `parseTracks`: copper segments. -/
def parseTracks (root : List SExpr) : List PcbTrack :=
  (findAllExpr root "segment").map fun seg =>
    { startX := atX (getXY seg "start")
      startY := atY (getXY seg "start")
      endX := atX (getXY seg "end")
      endY := atY (getXY seg "end")
      width := (getNumberValue seg "width").getD (some (1 / 4 : ℚ))
      layer := (getStringValue seg "layer").getD "F.Cu"
      net := (getNumberValue seg "net").getD (some 0) }

/-- `parseVias`. -/
def parseVias (root : List SExpr) : List PcbVia :=
  (findAllExpr root "via").map fun via =>
    { x := atX (getXY via "at")
      y := atY (getXY via "at")
      size := (getNumberValue via "size").getD (some (4 / 5 : ℚ))
      drill := (getNumberValue via "drill").getD (some (2 / 5 : ℚ))
      layers := match findExpr via "layers" with
        | none => []
        | some layersExpr => (layersExpr.drop 1).map toStr
      net := (getNumberValue via "net").getD (some 0) }

end KicadPcbParser

namespace KicadPcbParser

/-- The four segments a rectangle decomposes into. -/
def rectSegments (gtypeLayer : String) (sx sy ex ey : JsNum) (width : JsNum) :
    List BoardLine :=
  [ { gtype := "line", layer := gtypeLayer, width,
      startX := sx, startY := sy, endX := ex, endY := sy },
    { gtype := "line", layer := gtypeLayer, width,
      startX := ex, startY := sy, endX := ex, endY := ey },
    { gtype := "line", layer := gtypeLayer, width,
      startX := ex, startY := ey, endX := sx, endY := ey },
    { gtype := "line", layer := gtypeLayer, width,
      startX := sx, startY := ey, endX := sx, endY := sy } ]

/-- `parseBoardOutline`: gr_line, gr_arc, gr_rect (as four segments),
gr_circle and gr_poly items on the Edge.Cuts layer. -/
def parseBoardOutline (root : List SExpr) : List BoardLine :=
  ((findAllExpr root "gr_line").filterMap fun item =>
    if (getStringValue item "layer") ≠ some "Edge.Cuts" then none
    else
      let s := getXY item "start"
      let e := getXY item "end"
      some { gtype := "line", layer := "Edge.Cuts", width := getItemWidth item,
             startX := atX s, startY := atY s, endX := atX e, endY := atY e })
  ++ ((findAllExpr root "gr_arc").filterMap fun item =>
    if (getStringValue item "layer") ≠ some "Edge.Cuts" then none
    else
      let s := getXY item "start"
      let m := getXY item "mid"
      let e := getXY item "end"
      some { gtype := "arc", layer := "Edge.Cuts", width := getItemWidth item,
             startX := atX s, startY := atY s, endX := atX e, endY := atY e,
             midX := m.map (·.x), midY := m.map (·.y) })
  ++ ((findAllExpr root "gr_rect").filterMap fun item =>
    if (getStringValue item "layer") ≠ some "Edge.Cuts" then none
    else
      match getXY item "start", getXY item "end" with
      | some s, some e => some (rectSegments "Edge.Cuts" s.x s.y e.x e.y (getItemWidth item))
      | _, _ => none).flatten
  ++ ((findAllExpr root "gr_circle").filterMap fun item =>
    if (getStringValue item "layer") ≠ some "Edge.Cuts" then none
    else
      match getXY item "center", getXY item "end" with
      | some c, some e =>
        some { gtype := "circle", layer := "Edge.Cuts", width := getItemWidth item,
               startX := c.x, startY := c.y, endX := e.x, endY := e.y : BoardLine }
      | _, _ => none)
  ++ ((findAllExpr root "gr_poly").filterMap fun item =>
    if (getStringValue item "layer") ≠ some "Edge.Cuts" then none
    else
      let points := match findExpr item "pts" with
        | some pts => KicadSchematicParser.ptsPoints pts
        | none => []
      if points.length ≥ 2 then
        some { gtype := "poly", layer := "Edge.Cuts", width := getItemWidth item,
               startX := match points.head? with
                 | some p => p.x
                 | none => none
               startY := match points.head? with
                 | some p => p.y
                 | none => none
               endX := match points.getLast? with
                 | some p => p.x
                 | none => none
               endY := match points.getLast? with
                 | some p => p.y
                 | none => none
               points := some points }
      else none)

/-- `parseGraphicItems`: the same five kinds for every layer other than
Edge.Cuts (a missing layer child counts as the empty layer name), with
the polygon additionally carrying its fill type. -/
def parseGraphicItems (root : List SExpr) : List BoardLine :=
  ((findAllExpr root "gr_line").filterMap fun item =>
    let layer := (getStringValue item "layer").getD ""
    if layer = "Edge.Cuts" then none
    else
      let s := getXY item "start"
      let e := getXY item "end"
      some { gtype := "line", layer, width := getItemWidth item,
             startX := atX s, startY := atY s, endX := atX e, endY := atY e })
  ++ ((findAllExpr root "gr_arc").filterMap fun item =>
    let layer := (getStringValue item "layer").getD ""
    if layer = "Edge.Cuts" then none
    else
      let s := getXY item "start"
      let m := getXY item "mid"
      let e := getXY item "end"
      some { gtype := "arc", layer, width := getItemWidth item,
             startX := atX s, startY := atY s, endX := atX e, endY := atY e,
             midX := m.map (·.x), midY := m.map (·.y) })
  ++ ((findAllExpr root "gr_rect").filterMap fun item =>
    let layer := (getStringValue item "layer").getD ""
    if layer = "Edge.Cuts" then none
    else
      match getXY item "start", getXY item "end" with
      | some s, some e => some (rectSegments layer s.x s.y e.x e.y (getItemWidth item))
      | _, _ => none).flatten
  ++ ((findAllExpr root "gr_circle").filterMap fun item =>
    let layer := (getStringValue item "layer").getD ""
    if layer = "Edge.Cuts" then none
    else
      match getXY item "center", getXY item "end" with
      | some c, some e =>
        some { gtype := "circle", layer, width := getItemWidth item,
               startX := c.x, startY := c.y, endX := e.x, endY := e.y : BoardLine }
      | _, _ => none)
  ++ ((findAllExpr root "gr_poly").filterMap fun item =>
    let layer := (getStringValue item "layer").getD ""
    if layer = "Edge.Cuts" then none
    else
      let points := match findExpr item "pts" with
        | some pts => KicadSchematicParser.ptsPoints pts
        | none => []
      if points.length ≥ 2 then
        some { gtype := "poly", layer, width := getItemWidth item,
               fill := some (getFillType item),
               startX := match points.head? with
                 | some p => p.x
                 | none => none
               startY := match points.head? with
                 | some p => p.y
                 | none => none
               endX := match points.getLast? with
                 | some p => p.x
                 | none => none
               endY := match points.getLast? with
                 | some p => p.y
                 | none => none
               points := some points }
      else none)

/-- The declared layers of a zone: a single-layer child wins, else the
entries of a layers child, else the F.Cu fallback. -/
def zoneLayersOf (zone : List SExpr) : List String :=
  match getStringValue zone "layer" with
  | some l => [l]
  | none =>
    match findExpr zone "layers" with
    | some layersExpr =>
      let ls := (layersExpr.drop 1).map toStr
      if ls = [] then ["F.Cu"] else ls
    | none => ["F.Cu"]

/-- The net id of a zone. -/
def zoneNet (zone : List SExpr) : JsNum :=
  match findExpr zone "net" with
  | some (_ :: v :: _) => toNum v
  | _ => some 0

/-- The net name of a zone. -/
def zoneNetName (zone : List SExpr) : String :=
  (getStringValue zone "net_name").getD ""

/-- The xy vertices of one filled-polygon child. -/
def filledPts (filledPoly : List SExpr) : List PointQ :=
  match findExpr filledPoly "pts" with
  | some pts => KicadSchematicParser.ptsPoints pts
  | none => []

/-- The xy vertices of the zone outline polygon. -/
def zoneOutlinePts (zone : List SExpr) : List PointQ :=
  match findExpr zone "polygon" with
  | some polygon =>
    match findExpr polygon "pts" with
    | some pts => KicadSchematicParser.ptsPoints pts
    | none => []
  | none => []

/-- The zone entries contributed by one zone list: one entry per filled
polygon of at least three vertices; when no filled polygon exists, the
outline polygon (when it has at least three vertices) replicated once
per declared layer. -/
def processZone (zone : List SExpr) : List PcbZone :=
  let net := zoneNet zone
  let netName := zoneNetName zone
  let zoneLayers := zoneLayersOf zone
  let filledPolygons := findAllExpr zone "filled_polygon"
  if filledPolygons ≠ [] then
    filledPolygons.filterMap fun filledPoly =>
      let fpLayer := (getStringValue filledPoly "layer").getD (zoneLayers.headD "F.Cu")
      let points := filledPts filledPoly
      if points.length ≥ 3 then some { net, netName, layer := fpLayer, points }
      else none
  else
    let points := zoneOutlinePts zone
    if points.length ≥ 3 then
      zoneLayers.map fun l => { net, netName, layer := l, points }
    else []

/-- `parseZones`: every zone contributes its entries in order. -/
def parseZones (root : List SExpr) : List PcbZone :=
  ((findAllExpr root "zone").map processZone).flatten

/-- The model built from a root list that passed the tag check. -/
def extract (root : List SExpr) : PcbData :=
  let layers := parseLayers root
  { version := (getNumberValue root "version").getD (some 0)
    generator := (getStringValue root "generator").getD "unknown"
    layers
    nets := parseNets root
    footprints := parseFootprints root layers
    tracks := parseTracks root
    vias := parseVias root
    boardOutline := parseBoardOutline root
    graphicItems := parseGraphicItems root
    zones := parseZones root
    raw := root }

/-- `KicadPcbParser.parse`: tokenize, check that the first top-level
item is a list headed by the kicad_pcb tag, then extract; a mismatch is
the only error. -/
def parse (content : String) : Except String PcbData :=
  match parseSExpression content with
  | SExpr.list (SExpr.str t :: rest) :: _ =>
    if t = "kicad_pcb" then
      .ok (extract (SExpr.str t :: rest))
    else
      .error "Invalid KiCad PCB file: root must be kicad_pcb"
  | _ => .error "Invalid KiCad PCB file: root must be kicad_pcb"

end KicadPcbParser

-- ### Arc reconstruction from three points (PcbViewer.tsx)

/-- What `drawArcFrom3Points` draws: a straight segment from the first
to the third point, or a circular arc.  The arc case records the
circumcenter, the squared radius and the sweep direction flag (the
source computes the radius and the two angles from the same data via
square root and arctangent, irrational in general and inspected by no
claim). -/
inductive ArcDraw where
  | segment (ax ay cx cy : ℚ)
  | arc (ux uy radiusSq : ℚ) (ccw : Bool)
  deriving Repr, DecidableEq

/-- `drawArcFrom3Points(start, mid, end)`: the determinant guard falls
back to a straight line from start to end; otherwise the circumcenter
formula divides by the determinant. -/
def drawArcFrom3Points (ax ay bx bex cx cy : ℚ) : ArcDraw :=
  let d := 2 * (ax * (bex - cy) + bx * (cy - ay) + cx * (ay - bex))
  if |d| < 1 / 10 ^ 10 then .segment ax ay cx cy
  else
    let ux := ((ax ^ 2 + ay ^ 2) * (bex - cy) + (bx ^ 2 + bex ^ 2) * (cy - ay)
      + (cx ^ 2 + cy ^ 2) * (ay - bex)) / d
    let uy := ((ax ^ 2 + ay ^ 2) * (cx - bx) + (bx ^ 2 + bex ^ 2) * (ax - cx)
      + (cx ^ 2 + cy ^ 2) * (bx - ax)) / d
    let cross := (bx - ax) * (cy - ay) - (bex - ay) * (cx - ax)
    .arc ux uy ((ax - ux) ^ 2 + (ay - uy) ^ 2) (decide (0 < cross))

-- ### Branch equations of the scan loop

theorem isWsChar_elim {c : Char} (h : isWsChar c = true) :
    c = ' ' ∨ c = '\t' ∨ c = '\n' ∨ c = '\r' := by
  simp [isWsChar] at h
  tauto

theorem not_delim_facts {c : Char} (h : isDelimChar c = false) :
    c ≠ '(' ∧ c ≠ ')' ∧ c ≠ '\"' ∧ isWsChar c = false := by
  refine ⟨?_, ?_, ?_, ?_⟩ <;> simp [isDelimChar] at h <;> tauto

theorem ws_facts {c : Char} (h : isWsChar c = true) :
    c ≠ '(' ∧ c ≠ ')' ∧ c ≠ '\"' := by
  rcases isWsChar_elim h with e | e | e | e <;> subst e <;>
    exact ⟨by decide, by decide, by decide⟩

theorem run_nil (F : List (List SExpr)) : run [] F = finishFrames F := by
  rw [run.eq_def]

theorem run_open (rest : List Char) (F : List (List SExpr)) :
    run ('(' :: rest) F = run rest ([] :: F) := by
  rw [run.eq_def]
  simp

theorem run_close_nil (rest : List Char) :
    run (')' :: rest) [] = run rest [] := by
  rw [run.eq_def]
  simp

theorem run_close_one (rest : List Char) (f : List SExpr) :
    run (')' :: rest) [f] = run rest [f] := by
  rw [run.eq_def]
  simp

theorem run_close_cons (rest : List Char) (f g : List SExpr) (gs : List (List SExpr)) :
    run (')' :: rest) (f :: g :: gs) = run rest ((g ++ [SExpr.list f]) :: gs) := by
  rw [run.eq_def]
  simp

theorem run_quote (rest : List Char) (F : List (List SExpr)) :
    run ('\"' :: rest) F =
      run (scanString rest).2 (pushTop (.str (String.mk (scanString rest).1)) F) := by
  rw [run.eq_def]
  simp

theorem run_ws {c : Char} (rest : List Char) (F : List (List SExpr))
    (h : isWsChar c = true) : run (c :: rest) F = run rest F := by
  obtain ⟨h1, h2, h3⟩ := ws_facts h
  rw [run.eq_def]
  simp [h1, h2, h3, h]

theorem run_atom {c : Char} (rest : List Char) (F : List (List SExpr))
    (h : isDelimChar c = false) :
    run (c :: rest) F =
      run (rest.dropWhile (fun d => !isDelimChar d))
        (pushTop (classifyAtom
          (String.mk (c :: rest.takeWhile (fun d => !isDelimChar d)))) F) := by
  obtain ⟨h1, h2, h3, h4⟩ := not_delim_facts h
  rw [run.eq_def]
  simp [h1, h2, h3, h4]

theorem runFuel_nil (n : ℕ) (F : List (List SExpr)) :
    runFuel n [] F = some (finishFrames F) := by
  cases n <;> rw [runFuel.eq_def]

theorem runFuel_open (n : ℕ) (rest : List Char) (F : List (List SExpr)) :
    runFuel (n + 1) ('(' :: rest) F = runFuel n rest ([] :: F) := by
  rw [runFuel.eq_def]
  simp

theorem runFuel_close (n : ℕ) (rest : List Char) (F : List (List SExpr)) :
    runFuel (n + 1) (')' :: rest) F =
      (match F with
        | [] => runFuel n rest []
        | [f] => runFuel n rest [f]
        | f :: g :: gs => runFuel n rest ((g ++ [SExpr.list f]) :: gs)) := by
  rw [runFuel.eq_def]
  simp

theorem runFuel_quote (n : ℕ) (rest : List Char) (F : List (List SExpr)) :
    runFuel (n + 1) ('\"' :: rest) F =
      runFuel n (scanString rest).2 (pushTop (.str (String.mk (scanString rest).1)) F) := by
  rw [runFuel.eq_def]
  simp

theorem runFuel_ws (n : ℕ) {c : Char} (rest : List Char) (F : List (List SExpr))
    (h : isWsChar c = true) : runFuel (n + 1) (c :: rest) F = runFuel n rest F := by
  obtain ⟨h1, h2, h3⟩ := ws_facts h
  rw [runFuel.eq_def]
  simp [h1, h2, h3, h]

theorem runFuel_atom (n : ℕ) {c : Char} (rest : List Char) (F : List (List SExpr))
    (h : isDelimChar c = false) :
    runFuel (n + 1) (c :: rest) F =
      runFuel n (rest.dropWhile (fun d => !isDelimChar d))
        (pushTop (classifyAtom
          (String.mk (c :: rest.takeWhile (fun d => !isDelimChar d)))) F) := by
  obtain ⟨h1, h2, h3, h4⟩ := not_delim_facts h
  rw [runFuel.eq_def]
  simp [h1, h2, h3, h4]

/-- Every branch of the scan loop consumes at least one character, so
fuel equal to the remaining character count always suffices. -/
theorem runFuel_complete :
    ∀ (fuel : ℕ) (cs : List Char) (F : List (List SExpr)), cs.length ≤ fuel →
      runFuel fuel cs F = some (run cs F) := by
  intro fuel
  induction fuel with
  | zero =>
    intro cs F h
    have hnil : cs = [] := by
      cases cs with
      | nil => rfl
      | cons c rest => simp at h
    subst hnil
    rw [runFuel_nil, run_nil]
  | succ n ih =>
    intro cs F h
    cases cs with
    | nil => rw [runFuel_nil, run_nil]
    | cons c rest =>
      simp only [List.length_cons] at h
      by_cases hc1 : c = '('
      · subst hc1
        rw [run_open, runFuel_open]
        exact ih rest _ (by omega)
      · by_cases hc2 : c = ')'
        · subst hc2
          rw [runFuel_close]
          match F with
          | [] => rw [run_close_nil]; exact ih rest _ (by omega)
          | [f] => rw [run_close_one]; exact ih rest _ (by omega)
          | f :: g :: gs => rw [run_close_cons]; exact ih rest _ (by omega)
        · by_cases hc3 : c = '\"'
          · subst hc3
            rw [run_quote, runFuel_quote]
            have hlen := scanString_snd_length_le rest
            exact ih _ _ (by omega)
          · by_cases hc4 : isWsChar c
            · rw [run_ws rest F hc4, runFuel_ws n rest F hc4]
              exact ih rest _ (by omega)
            · have hd : isDelimChar c = false := by
                simp [isDelimChar, hc1, hc2, hc3]
                simpa using hc4
              rw [run_atom rest F hd, runFuel_atom n rest F hd]
              have hlen := (List.dropWhile_sublist
                (l := rest) (p := fun d => !isDelimChar d)).length_le
              exact ih _ _ (by omega)

/-- Evaluate the parser on a concrete input through the fuelled loop. -/
theorem parseSExpression_eval {s : String} {v : List SExpr}
    (h : runFuel s.data.length s.data [[]] = some v) : parseSExpression s = v := by
  have h2 := runFuel_complete s.data.length s.data [[]] le_rfl
  rw [h] at h2
  exact (Option.some.inj h2).symm

-- ### Claim theorems

/-- C9: for every three colinear points (start, mid, end), the
degenerate-determinant guard of the three-point arc reconstruction
takes the fallback branch (no division by the determinant happens) and
the produced primitive is a straight segment from the first point to
the third point. -/
theorem claim_c9 (ax ay bx bex cx cy : ℚ)
    (hcol : (bx - ax) * (cy - ay) - (bex - ay) * (cx - ax) = 0) :
    drawArcFrom3Points ax ay bx bex cx cy = .segment ax ay cx cy := by
  have hd : 2 * (ax * (bex - cy) + bx * (cy - ay) + cx * (ay - bex)) = 0 := by
    linear_combination (2 : ℚ) * hcol
  simp only [drawArcFrom3Points, hd]
  norm_num

section
attribute [local semireducible] Rat.add Rat.mul Rat.inv Rat.sub

/-- Witness for C9 at the colinear triple (0,0), (1,1), (2,2). -/
theorem claim_c9_witness :
    ((1 - 0) * (2 - 0) - (1 - 0) * (2 - 0) : ℚ) = 0 ∧
    drawArcFrom3Points 0 0 1 1 2 2 = .segment 0 0 2 2 :=
  ⟨by decide, claim_c9 0 0 1 1 2 2 (by decide)⟩

end

/-- C5: the copper wildcard in a pad layer list expands to exactly the
names of the layer-table entries ending in the copper suffix, in table
order; the mask and paste wildcards expand to the fixed front/back
pairs independently of the table; a pad's layer list is the
concatenation of the expansions of its entries; and on the table
F.Cu, In1.Cu, B.Cu the copper wildcard expands to exactly those three
names. -/
theorem claim_c5 :
    (∀ L : List PcbLayer,
      KicadPcbParser.expandOneLayer L (SExpr.str "*.Cu")
        = (L.filter fun l => KicadPcbParser.strEndsWith l.name ".Cu").map (fun l => l.name))
    ∧ (∀ L : List PcbLayer,
      KicadPcbParser.expandOneLayer L (SExpr.str "*.Mask") = ["F.Mask", "B.Mask"])
    ∧ (∀ L : List PcbLayer,
      KicadPcbParser.expandOneLayer L (SExpr.str "*.Paste") = ["F.Paste", "B.Paste"])
    ∧ (∀ (L : List PcbLayer) (pad layersExpr : List SExpr),
        findExpr pad "layers" = some layersExpr →
        (KicadPcbParser.parsePad L pad).layers
          = (layersExpr.drop 1).flatMap (KicadPcbParser.expandOneLayer L))
    ∧ KicadPcbParser.expandOneLayer
        [⟨some 0, "F.Cu", "signal"⟩, ⟨some 1, "In1.Cu", "signal"⟩, ⟨some 2, "B.Cu", "signal"⟩]
        (SExpr.str "*.Cu") = ["F.Cu", "In1.Cu", "B.Cu"] := by
  refine ⟨?_, ?_, ?_, ?_, ?_⟩
  · intro L
    simp [KicadPcbParser.expandOneLayer, toStr]
  · intro L
    simp [KicadPcbParser.expandOneLayer, toStr]
  · intro L
    simp [KicadPcbParser.expandOneLayer, toStr]
  · intro L pad layersExpr h
    simp [KicadPcbParser.parsePad, h]
  · decide

/-- Witness for C5: a pad declaring only the copper wildcard against
the three-entry table ends up on exactly the three copper layers. -/
theorem claim_c5_witness :
    findExpr [SExpr.str "pad", SExpr.list [SExpr.str "layers", SExpr.str "*.Cu"]] "layers"
      = some [SExpr.str "layers", SExpr.str "*.Cu"] ∧
    (KicadPcbParser.parsePad
      [⟨some 0, "F.Cu", "signal"⟩, ⟨some 1, "In1.Cu", "signal"⟩, ⟨some 2, "B.Cu", "signal"⟩]
      [SExpr.str "pad", SExpr.list [SExpr.str "layers", SExpr.str "*.Cu"]]).layers
      = ["F.Cu", "In1.Cu", "B.Cu"] :=
  ⟨by decide, by
    have h := claim_c5.2.2.2.1
      [⟨some 0, "F.Cu", "signal"⟩, ⟨some 1, "In1.Cu", "signal"⟩, ⟨some 2, "B.Cu", "signal"⟩]
      [SExpr.str "pad", SExpr.list [SExpr.str "layers", SExpr.str "*.Cu"]]
      [SExpr.str "layers", SExpr.str "*.Cu"] (by decide)
    rw [h]
    decide⟩

/-- The length of a filterMap whose function is an if-then-some equals
the length of the corresponding filter. -/
theorem length_filterMap_if {α β : Type _} (p : α → Prop) [DecidablePred p] (g : α → β) :
    ∀ l : List α, (l.filterMap (fun x => if p x then some (g x) else none)).length
      = (l.filter (fun x => decide (p x))).length
  | [] => rfl
  | x :: xs => by
    by_cases h : p x <;>
      simp [List.filterMap_cons, List.filter_cons, h, length_filterMap_if p g xs]

/-- C6: a zone with no filled-polygon children and an outline polygon
of at least three vertices yields one entry per declared layer, each
carrying the same vertex list; an outline with fewer than three
vertices yields nothing; and with filled polygons present the entry
count is exactly the number of filled polygons with at least three
vertices (degenerate ones are discarded). -/
theorem claim_c6 :
    (∀ zone : List SExpr, findAllExpr zone "filled_polygon" = [] →
      3 ≤ (KicadPcbParser.zoneOutlinePts zone).length →
      KicadPcbParser.processZone zone = (KicadPcbParser.zoneLayersOf zone).map
        (fun l => { net := KicadPcbParser.zoneNet zone,
                    netName := KicadPcbParser.zoneNetName zone,
                    layer := l, points := KicadPcbParser.zoneOutlinePts zone }))
    ∧ (∀ zone : List SExpr, findAllExpr zone "filled_polygon" = [] →
      (KicadPcbParser.zoneOutlinePts zone).length < 3 →
      KicadPcbParser.processZone zone = [])
    ∧ (∀ zone : List SExpr,
      (KicadPcbParser.processZone zone).length =
        if findAllExpr zone "filled_polygon" = [] then
          (if 3 ≤ (KicadPcbParser.zoneOutlinePts zone).length then
            (KicadPcbParser.zoneLayersOf zone).length else 0)
        else
          ((findAllExpr zone "filled_polygon").filter
            (fun fp => 3 ≤ (KicadPcbParser.filledPts fp).length)).length) := by
  refine ⟨?_, ?_, ?_⟩
  · intro zone h1 h2
    simp [KicadPcbParser.processZone, h1, h2]
  · intro zone h1 h2
    simp [KicadPcbParser.processZone, h1, Nat.not_le.mpr h2]
  · intro zone
    by_cases h1 : findAllExpr zone "filled_polygon" = []
    · by_cases h2 : 3 ≤ (KicadPcbParser.zoneOutlinePts zone).length
      · simp [KicadPcbParser.processZone, h1, h2]
      · simp [KicadPcbParser.processZone, h1, h2]
    · simp only [KicadPcbParser.processZone, if_neg h1, ne_eq, not_false_iff, if_pos]
      rw [if_pos h1]
      exact length_filterMap_if
        (fun fp => 3 ≤ (KicadPcbParser.filledPts fp).length)
        (fun fp => show PcbZone from
          { net := KicadPcbParser.zoneNet zone
            netName := KicadPcbParser.zoneNetName zone
            layer := (getStringValue fp "layer").getD
              ((KicadPcbParser.zoneLayersOf zone).headD "F.Cu")
            points := KicadPcbParser.filledPts fp })
        (findAllExpr zone "filled_polygon")

/-- A two-layer zone with only an outline polygon, used as the C6
witness input. -/
def c6zone : List SExpr :=
  [SExpr.str "zone", SExpr.list [SExpr.str "net", SExpr.num 1],
   SExpr.list [SExpr.str "layers", SExpr.str "F.Cu", SExpr.str "B.Cu"],
   SExpr.list [SExpr.str "polygon", SExpr.list [SExpr.str "pts",
     SExpr.list [SExpr.str "xy", SExpr.num 0, SExpr.num 0],
     SExpr.list [SExpr.str "xy", SExpr.num 1, SExpr.num 0],
     SExpr.list [SExpr.str "xy", SExpr.num 1, SExpr.num 1]]]]

/-- Witness for C6: the two-layer outline-only zone yields exactly two
entries with the shared vertex list. -/
theorem claim_c6_witness :
    findAllExpr c6zone "filled_polygon" = [] ∧
    3 ≤ (KicadPcbParser.zoneOutlinePts c6zone).length ∧
    KicadPcbParser.processZone c6zone =
      [{ net := some 1, netName := "", layer := "F.Cu",
         points := [⟨some 0, some 0⟩, ⟨some 1, some 0⟩, ⟨some 1, some 1⟩] },
       { net := some 1, netName := "", layer := "B.Cu",
         points := [⟨some 0, some 0⟩, ⟨some 1, some 0⟩, ⟨some 1, some 1⟩] }] := by
  refine ⟨by decide, by decide, ?_⟩
  rw [claim_c6.1 c6zone (by decide) (by decide)]
  decide

/-- The wire element with three points used for C3. -/
def c3wire : List SExpr :=
  [SExpr.str "wire", SExpr.list [SExpr.str "pts",
    SExpr.list [SExpr.str "xy", SExpr.num 0, SExpr.num 0],
    SExpr.list [SExpr.str "xy", SExpr.num 1, SExpr.num 1],
    SExpr.list [SExpr.str "xy", SExpr.num 2, SExpr.num 2]]]

/-- A schematic root holding the three-point wire. -/
def c3root : List SExpr := [SExpr.str "kicad_sch", SExpr.list c3wire]

/-- C3 counterexample: on a wire whose point list is (0,0), (1,1),
(2,2) the extractor keeps (1,1) — the second point — as the end, not
the last point (2,2) the claim names. -/
theorem claim_c3_counterexample :
    KicadSchematicParser.parseWires c3root
      = [{ startX := some 0, startY := some 0, endX := some 1, endY := some 1 }] ∧
    ({ startX := some 0, startY := some 0, endX := some 1, endY := some 1 : Wire }
      ≠ { startX := some 0, startY := some 0, endX := some 2, endY := some 2 }) := by
  exact ⟨by decide, by decide⟩

/-- C3 as amended: the extracted wire keeps the first point as start
and the second point as end; any further points are ignored, and no
wire element produces more than one wire record. -/
theorem claim_c3 :
    (∀ (wire pts x0 x1 : List SExpr) (rest : List (List SExpr)),
      findExpr wire "pts" = some pts →
      findAllExpr pts "xy" = x0 :: x1 :: rest →
      KicadSchematicParser.wireOf wire =
        { startX := elemNum x0 1, startY := elemNum x0 2,
          endX := elemNum x1 1, endY := elemNum x1 2 })
    ∧ (∀ root : List SExpr,
      (KicadSchematicParser.parseWires root).length = (findAllExpr root "wire").length) := by
  constructor
  · intro wire pts x0 x1 rest h1 h2
    simp [KicadSchematicParser.wireOf, h1, h2]
  · intro root
    simp [KicadSchematicParser.parseWires]

/-- Witness for C3 at the three-point wire: start is the first point,
end is the second. -/
theorem claim_c3_witness :
    findExpr c3wire "pts" = some [SExpr.str "pts",
      SExpr.list [SExpr.str "xy", SExpr.num 0, SExpr.num 0],
      SExpr.list [SExpr.str "xy", SExpr.num 1, SExpr.num 1],
      SExpr.list [SExpr.str "xy", SExpr.num 2, SExpr.num 2]] ∧
    KicadSchematicParser.wireOf c3wire =
      { startX := some 0, startY := some 0, endX := some 1, endY := some 1 } := by
  refine ⟨by decide, ?_⟩
  rw [claim_c3.1 c3wire
    [SExpr.str "pts",
      SExpr.list [SExpr.str "xy", SExpr.num 0, SExpr.num 0],
      SExpr.list [SExpr.str "xy", SExpr.num 1, SExpr.num 1],
      SExpr.list [SExpr.str "xy", SExpr.num 2, SExpr.num 2]]
    [SExpr.str "xy", SExpr.num 0, SExpr.num 0]
    [SExpr.str "xy", SExpr.num 1, SExpr.num 1]
    [[SExpr.str "xy", SExpr.num 2, SExpr.num 2]]
    (by decide) (by decide)]
  decide

section
attribute [local semireducible] Rat.add Rat.mul Rat.inv Rat.sub
set_option maxRecDepth 4000

/-- The scenario-A input: a minimal schematic with one placed symbol at
(10, 20) and a matching library symbol with one pin at the local
origin. -/
def c4input : String :=
  "(kicad_sch (lib_symbols (symbol \"Device:R\" (symbol \"R_0_1\" (pin passive line (at 0 0 0) (length 2.54) (name \"~\") (number \"1\"))))) (symbol (lib_id \"Device:R\") (at 10 20)))"

/-- The root list the tokenizer produces for the scenario-A input. -/
def c4root : List SExpr :=
  [SExpr.str "kicad_sch",
   SExpr.list [SExpr.str "lib_symbols",
     SExpr.list [SExpr.str "symbol", SExpr.str "Device:R",
       SExpr.list [SExpr.str "symbol", SExpr.str "R_0_1",
         SExpr.list [SExpr.str "pin", SExpr.str "passive", SExpr.str "line",
           SExpr.list [SExpr.str "at", SExpr.num 0, SExpr.num 0, SExpr.num 0],
           SExpr.list [SExpr.str "length", SExpr.num (127/50)],
           SExpr.list [SExpr.str "name", SExpr.str "~"],
           SExpr.list [SExpr.str "number", SExpr.str "1"]]]]],
   SExpr.list [SExpr.str "symbol",
     SExpr.list [SExpr.str "lib_id", SExpr.str "Device:R"],
     SExpr.list [SExpr.str "at", SExpr.num 10, SExpr.num 20]]]

theorem c4_parse_tree : parseSExpression c4input = [SExpr.list c4root] :=
  parseSExpression_eval (by decide)

theorem c4_parse_ok : KicadSchematicParser.parse c4input
    = .ok (KicadSchematicParser.extract c4root) := by
  unfold KicadSchematicParser.parse
  rw [c4_parse_tree]
  simp only [c4root, if_true]

/-- C4 counterexample: on the scenario-A input the extractor yields
exactly one symbol, anchored at (10, 20), whose pin list is empty —
there is no resolved pin at (10, 20); the extractor never resolves
library pins onto placed symbols. -/
theorem claim_c4_counterexample :
    KicadSchematicParser.parse c4input = .ok (KicadSchematicParser.extract c4root) ∧
    (KicadSchematicParser.extract c4root).symbols.map
      (fun s => (s.libId, s.x, s.y, s.pins)) = [("Device:R", some 10, some 20, [])] ∧
    ([] : List SchematicPin) ≠ [{ x := some 10, y := some 20, name := none, number := none }] :=
  ⟨c4_parse_ok, by decide, by decide⟩

/-- C4 as amended: the scenario-A input yields exactly one symbol,
anchored at (10, 20), with an empty instance pin list; the library
symbol's pin stays at the local origin inside the catalog, and no
pin-position resolution against the placement happens during
extraction. -/
theorem claim_c4 :
    KicadSchematicParser.parse c4input = .ok (KicadSchematicParser.extract c4root) ∧
    (KicadSchematicParser.extract c4root).symbols.map
      (fun s => (s.libId, s.x, s.y, s.rotation, s.pins))
      = [("Device:R", some 10, some 20, some 0, [])] ∧
    (KicadSchematicParser.extract c4root).libSymbols.map
      (fun p => (p.1, p.2.units.map fun u => u.pins.map fun pin => (pin.x, pin.y)))
      = [("Device:R", [[(some 0, some 0)]])] :=
  ⟨c4_parse_ok, by decide, by decide⟩

end

/-- The root check both extractors perform: the first top-level item
must be a list whose head atom is the expected tag. -/
def rootTagOk (tag : String) (exprs : List SExpr) : Bool :=
  match exprs with
  | SExpr.list (SExpr.str t :: _) :: _ => t == tag
  | _ => false

/-- C1: each extractor succeeds exactly when the first top-level parsed
item is a list headed by its root tag, and in every failing case the
result is precisely the root-tag FormatError — no other condition in
the input aborts extraction, and on a matching root a model is always
returned. -/
theorem claim_c1 (content : String) :
    ((KicadSchematicParser.parse content).isOk = true
      ↔ rootTagOk "kicad_sch" (parseSExpression content) = true)
    ∧ ((KicadPcbParser.parse content).isOk = true
      ↔ rootTagOk "kicad_pcb" (parseSExpression content) = true)
    ∧ ((KicadSchematicParser.parse content).isOk = false
      → KicadSchematicParser.parse content
        = .error "Invalid KiCad schematic file: root expression must be kicad_sch")
    ∧ ((KicadPcbParser.parse content).isOk = false
      → KicadPcbParser.parse content
        = .error "Invalid KiCad PCB file: root must be kicad_pcb") := by
  unfold KicadSchematicParser.parse KicadPcbParser.parse rootTagOk
  cases hes : parseSExpression content with
  | nil => simp [Except.isOk, Except.toBool]
  | cons e rest =>
    cases e with
    | str s => simp [Except.isOk, Except.toBool]
    | num q => simp [Except.isOk, Except.toBool]
    | list l =>
      cases l with
      | nil => simp [Except.isOk, Except.toBool]
      | cons hd tl =>
        cases hd with
        | str t =>
          by_cases h1 : t = "kicad_sch" <;> by_cases h2 : t = "kicad_pcb" <;>
            simp [h1, h2, Except.isOk, Except.toBool]
        | num q => simp [Except.isOk, Except.toBool]
        | list l2 => simp [Except.isOk, Except.toBool]

/-- C10: the scan loop consumes at least one character per iteration,
so it terminates within one iteration per input character on every
input — the fuelled loop with fuel equal to the input length already
returns the parse result — and the empty input returns the empty
top-level sequence. -/
theorem claim_c10 :
    (∀ (s : String) (fuel : ℕ), s.data.length ≤ fuel →
      runFuel fuel s.data [[]] = some (parseSExpression s))
    ∧ parseSExpression "" = [] := by
  constructor
  · intro s fuel h
    exact runFuel_complete fuel s.data [[]] h
  · rw [parseSExpression]
    rw [run_nil]
    rfl

/-- Witness for C10 on a garbage input (unterminated quote and list):
its own length suffices as fuel. -/
theorem claim_c10_witness :
    ("((\"x".data.length ≤ 4 ∧
      runFuel 4 "((\"x".data [[]] = some (parseSExpression "((\"x")) ∧
    parseSExpression "((\"x" = [SExpr.list [SExpr.list [SExpr.str "x"]]] :=
  ⟨⟨by decide, claim_c10.1 "((\"x" 4 (by decide)⟩, parseSExpression_eval (by decide)⟩

/-- A quoted-string scan over characters free of quotes and
backslashes returns exactly those characters. -/
theorem scanString_clean (rest : List Char) :
    ∀ cs : List Char, (∀ c ∈ cs, c ≠ '\"' ∧ c ≠ '\\') →
      scanString (cs ++ '\"' :: rest) = (cs, rest)
  | [], _ => by simp [scanString.eq_def]
  | c :: cs2, h => by
    obtain ⟨h1, h2⟩ := h c (by simp)
    have ih := scanString_clean rest cs2 (fun d hd => h d (by simp [hd]))
    rw [List.cons_append, scanString.eq_def]
    simp only [if_neg h1, if_neg h2]
    cases hcs : cs2 ++ '\"' :: rest with
    | nil => simp at hcs
    | cons d ds =>
      rw [← hcs]
      simp [ih]

theorem string_mk_ne_empty {cs : List Char} (h : cs ≠ []) : String.mk cs ≠ "" := by
  intro e
  have h2 := congrArg String.data e
  simp at h2
  exact h h2

section
attribute [local semireducible] Rat.add Rat.mul Rat.inv Rat.sub
set_option maxRecDepth 4000

/-- C7: a whole input that is one unquoted token becomes a single atom
whose kind is decided by the full-string numeric parse of the token; a
quoted token always stays text; and the spec's example tokens classify
as stated, including the prefix-numeric token 12a staying text. -/
theorem claim_c7 :
    (∀ cs : List Char, cs ≠ [] → (∀ c ∈ cs, isDelimChar c = false) →
      parseSExpression (String.mk cs) =
        [match jsStrToNum (String.mk cs) with
          | some q => SExpr.num q
          | none => SExpr.str (String.mk cs)])
    ∧ (∀ s : String, (∀ c ∈ s.data, c ≠ '\"' ∧ c ≠ '\\') →
      parseSExpression ("\"" ++ s ++ "\"") = [SExpr.str s])
    ∧ parseSExpression "42" = [SExpr.num 42]
    ∧ parseSExpression "-3.5" = [SExpr.num (-7/2)]
    ∧ parseSExpression "1e3" = [SExpr.num 1000]
    ∧ parseSExpression "F.Cu" = [SExpr.str "F.Cu"]
    ∧ parseSExpression "R1" = [SExpr.str "R1"]
    ∧ parseSExpression "\"\"" = [SExpr.str ""]
    ∧ parseSExpression "12a" = [SExpr.str "12a"] := by
  refine ⟨?_, ?_, ?_, ?_, ?_, ?_, ?_, ?_, ?_⟩
  · intro cs hne hall
    cases cs with
    | nil => exact absurd rfl hne
    | cons c rest =>
      have hc := hall c (by simp)
      have hrest : rest.takeWhile (fun d => !isDelimChar d) = rest := by
        rw [List.takeWhile_eq_self_iff]
        intro a ha
        simp [hall a (by simp [ha])]
      have hdrop : rest.dropWhile (fun d => !isDelimChar d) = [] := by
        rw [List.dropWhile_eq_nil_iff]
        intro a ha
        simp [hall a (by simp [ha])]
      show run (c :: rest) [[]] = _
      rw [run_atom rest [[]] hc, hrest, hdrop, run_nil]
      have hns : String.mk (c :: rest) ≠ "" := string_mk_ne_empty (by simp)
      unfold classifyAtom
      cases hj : jsStrToNum (String.mk (c :: rest)) with
      | some q => simp [pushTop, finishFrames, if_neg hns]
      | none => simp [pushTop, finishFrames]
  · intro s hall
    have hdata : ("\"" ++ s ++ "\"").data = '\"' :: (s.data ++ ['\"']) := by
      simp
    show run ("\"" ++ s ++ "\"").data [[]] = _
    rw [hdata, run_quote, scanString_clean [] s.data hall]
    simp [pushTop, finishFrames, run_nil]
  · exact parseSExpression_eval (by decide)
  · exact parseSExpression_eval (by decide)
  · exact parseSExpression_eval (by decide)
  · exact parseSExpression_eval (by decide)
  · exact parseSExpression_eval (by decide)
  · exact parseSExpression_eval (by decide)
  · exact parseSExpression_eval (by decide)

/-- Witness for C7: the token R1 through the unquoted conjunct and the
text a b through the quoted conjunct. -/
theorem claim_c7_witness :
    parseSExpression (String.mk ['R', '1']) = [SExpr.str "R1"] ∧
    parseSExpression ("\"" ++ "a b" ++ "\"") = [SExpr.str "a b"] := by
  constructor
  · rw [claim_c7.1 ['R', '1'] (by decide) (by decide)]
    decide
  · exact claim_c7.2.1 "a b" (by decide)

end

-- ### Decimal rendering round-trips through the numeric parse

theorem charsToNat_foldl (b : List Char) :
    ∀ acc : ℕ, b.foldl (fun a c => a * 10 + digitVal c) acc
      = acc * 10 ^ b.length + charsToNat b := by
  induction b with
  | nil => intro acc; simp [charsToNat]
  | cons d b2 ih =>
    intro acc
    show b2.foldl _ (acc * 10 + digitVal d) = _
    rw [ih (acc * 10 + digitVal d)]
    have h2 : charsToNat (d :: b2) = digitVal d * 10 ^ b2.length + charsToNat b2 := by
      show b2.foldl _ (0 * 10 + digitVal d) = _
      rw [ih (0 * 10 + digitVal d)]
      ring
    rw [h2]
    simp [List.length_cons]
    ring

theorem charsToNat_append (a b : List Char) :
    charsToNat (a ++ b) = charsToNat a * 10 ^ b.length + charsToNat b := by
  unfold charsToNat
  rw [List.foldl_append]
  exact charsToNat_foldl b _

theorem charsToNat_replicate_zero (k : ℕ) :
    charsToNat (List.replicate k '0') = 0 := by
  induction k with
  | zero => rfl
  | succ n ih =>
    have h : List.replicate (n + 1) '0' = List.replicate n '0' ++ ['0'] := by
      rw [List.replicate_succ']
    rw [h, charsToNat_append, ih]
    decide

theorem digit_char_spec {m : ℕ} (h : m < 10) :
    (Char.ofNat ('0'.toNat + m)).isDigit = true ∧
    digitVal (Char.ofNat ('0'.toNat + m)) = m := by
  interval_cases m <;> exact ⟨by decide, by decide⟩

theorem natToCharsAux_spec :
    ∀ (f m : ℕ), m < 10 ^ (f + 1) →
      charsToNat (natToCharsAux (f + 1) m) = m ∧
      (∀ c ∈ natToCharsAux (f + 1) m, c.isDigit = true) ∧
      natToCharsAux (f + 1) m ≠ [] := by
  intro f
  induction f with
  | zero =>
    intro m hm
    have h10 : m < 10 := by simpa using hm
    rw [natToCharsAux, if_pos h10]
    obtain ⟨hd, hv⟩ := digit_char_spec h10
    refine ⟨?_, ?_, by simp⟩
    · show charsToNat [_] = m
      unfold charsToNat
      simpa using hv
    · intro c hc
      simp at hc
      rw [hc]
      exact hd
  | succ f2 ih =>
    intro m hm
    by_cases h10 : m < 10
    · rw [natToCharsAux, if_pos h10]
      obtain ⟨hd, hv⟩ := digit_char_spec h10
      refine ⟨?_, ?_, by simp⟩
      · show charsToNat [_] = m
        unfold charsToNat
        simpa using hv
      · intro c hc
        simp at hc
        rw [hc]
        exact hd
    · rw [natToCharsAux, if_neg h10]
      have hdiv : m / 10 < 10 ^ (f2 + 1) := by
        rw [Nat.div_lt_iff_lt_mul (by norm_num)]
        calc m < 10 ^ (f2 + 1 + 1) := hm
        _ = 10 ^ (f2 + 1) * 10 := by ring
      obtain ⟨ihv, ihd, ihne⟩ := ih (m / 10) hdiv
      have hmod : m % 10 < 10 := Nat.mod_lt m (by norm_num)
      obtain ⟨hd2, hv2⟩ := digit_char_spec hmod
      refine ⟨?_, ?_, by simp⟩
      · rw [charsToNat_append, ihv]
        have : charsToNat [Char.ofNat ('0'.toNat + m % 10)] = m % 10 := by
          unfold charsToNat
          simpa using hv2
        rw [this]
        simp
        omega
      · intro c hc
        simp at hc
        rcases hc with hc | hc
        · exact ihd c hc
        · rw [hc]
          exact hd2

theorem natToChars_spec (n : ℕ) :
    charsToNat (natToChars n) = n ∧
    (∀ c ∈ natToChars n, c.isDigit = true) ∧
    natToChars n ≠ [] := by
  have h : n < 10 ^ (n + 1) := by
    calc n < 10 ^ n := Nat.lt_pow_self (by norm_num) n
    _ ≤ 10 ^ (n + 1) := Nat.pow_le_pow_right (by norm_num) (by omega)
  exact natToCharsAux_spec n n h

theorem digit_facts {c : Char} (h : c.isDigit = true) :
    c ≠ '-' ∧ c ≠ '+' ∧ c ≠ '.' ∧ c ≠ 'e' ∧ c ≠ 'E' ∧
    isWsChar c = false ∧ isDelimChar c = false := by
  have hs : c ≠ ' ' := by intro e; subst e; exact absurd h (by decide)
  have ht : c ≠ '\t' := by intro e; subst e; exact absurd h (by decide)
  have hn : c ≠ '\n' := by intro e; subst e; exact absurd h (by decide)
  have hr : c ≠ '\r' := by intro e; subst e; exact absurd h (by decide)
  have hop : c ≠ '(' := by intro e; subst e; exact absurd h (by decide)
  have hcp : c ≠ ')' := by intro e; subst e; exact absurd h (by decide)
  have hq : c ≠ '\"' := by intro e; subst e; exact absurd h (by decide)
  have hmin : c ≠ '-' := by intro e; subst e; exact absurd h (by decide)
  have hplus : c ≠ '+' := by intro e; subst e; exact absurd h (by decide)
  have hdot : c ≠ '.' := by intro e; subst e; exact absurd h (by decide)
  have hee : c ≠ 'e' := by intro e; subst e; exact absurd h (by decide)
  have hEE : c ≠ 'E' := by intro e; subst e; exact absurd h (by decide)
  have hws : isWsChar c = false := by simp [isWsChar, hs, ht, hn, hr]
  refine ⟨hmin, hplus, hdot, hee, hEE, hws, ?_⟩
  simp [isDelimChar, hws, hop, hcp, hq]

theorem takeWhile_all {p : Char → Bool} {l : List Char} (h : ∀ c ∈ l, p c = true) :
    l.takeWhile p = l := List.takeWhile_eq_self_iff.mpr h

theorem dropWhile_all {p : Char → Bool} {l : List Char} (h : ∀ c ∈ l, p c = true) :
    l.dropWhile p = [] := List.dropWhile_eq_nil_iff.mpr h

theorem takeWhile_append_stop {p : Char → Bool} {b : Char} (rest : List Char)
    (hb : p b = false) :
    ∀ a : List Char, (∀ c ∈ a, p c = true) →
      (a ++ b :: rest).takeWhile p = a ∧ (a ++ b :: rest).dropWhile p = b :: rest
  | [], _ => by simp [List.takeWhile, List.dropWhile, hb]
  | c :: a2, h => by
    have hc := h c (by simp)
    obtain ⟨ih1, ih2⟩ := takeWhile_append_stop rest hb a2 (fun d hd => h d (by simp [hd]))
    refine ⟨?_, ?_⟩
    · rw [List.cons_append, List.takeWhile_cons, if_pos hc, ih1]
    · rw [List.cons_append, List.dropWhile_cons, if_pos hc, ih2]

theorem decSplitSign_no_sign {cs : List Char} (hdig : ∀ c ∈ cs, c.isDigit = true)
    (hne : cs ≠ []) : decSplitSign cs = (false, cs) := by
  cases cs with
  | nil => exact absurd rfl hne
  | cons c r =>
    obtain ⟨h1, h2, _⟩ := digit_facts (hdig c (by simp))
    simp [decSplitSign, h1, h2]

theorem parseDecCore_digits (ds : List Char) (hne : ds ≠ [])
    (hdig : ∀ c ∈ ds, c.isDigit = true) :
    parseDecCore ds = some ((charsToNat ds : ℚ)) := by
  unfold parseDecCore
  rw [decSplitSign_no_sign hdig hne]
  simp only
  rw [takeWhile_all hdig, dropWhile_all hdig]
  simp only [Option.map_none, Option.getD_none, Option.map_some, Option.getD_some]
  rw [if_neg (by simp [hne])]
  simp [parseExpPart, charsToNat]

theorem parseDecCore_digits_dot (ds1 ds2 : List Char) (hne : ds1 ≠ [])
    (h1 : ∀ c ∈ ds1, c.isDigit = true) (h2 : ∀ c ∈ ds2, c.isDigit = true) :
    parseDecCore (ds1 ++ '.' :: ds2)
      = some ((charsToNat ds1 : ℚ) + (charsToNat ds2 : ℚ) / 10 ^ ds2.length) := by
  have hsign : decSplitSign (ds1 ++ '.' :: ds2) = (false, ds1 ++ '.' :: ds2) := by
    cases ds1 with
    | nil => exact absurd rfl hne
    | cons c r =>
      obtain ⟨hm, hp, _⟩ := digit_facts (h1 c (by simp))
      simp [decSplitSign, hm, hp]
  obtain ⟨htake, hdrop⟩ := takeWhile_append_stop (p := Char.isDigit) (b := '.') ds2 (by decide) ds1 h1
  unfold parseDecCore
  rw [hsign]
  simp only
  rw [htake, hdrop]
  simp only [Option.map_some, Option.getD_some]
  rw [takeWhile_all h2, dropWhile_all h2]
  rw [if_neg (by simp [hne])]
  simp [parseExpPart]

theorem parseDecCore_neg_digits (ds : List Char) (hne : ds ≠ [])
    (hdig : ∀ c ∈ ds, c.isDigit = true) :
    parseDecCore ('-' :: ds) = some (-(charsToNat ds : ℚ)) := by
  unfold parseDecCore
  have hsign : decSplitSign ('-' :: ds) = (true, ds) := by simp [decSplitSign]
  rw [hsign]
  simp only
  rw [takeWhile_all hdig, dropWhile_all hdig]
  simp only [Option.map_none, Option.getD_none, Option.map_some, Option.getD_some]
  rw [if_neg (by simp [hne])]
  simp [parseExpPart, charsToNat]

theorem parseDecCore_neg_digits_dot (ds1 ds2 : List Char) (hne : ds1 ≠ [])
    (h1 : ∀ c ∈ ds1, c.isDigit = true) (h2 : ∀ c ∈ ds2, c.isDigit = true) :
    parseDecCore ('-' :: (ds1 ++ '.' :: ds2))
      = some (-((charsToNat ds1 : ℚ) + (charsToNat ds2 : ℚ) / 10 ^ ds2.length)) := by
  have hsign : decSplitSign ('-' :: (ds1 ++ '.' :: ds2)) = (true, ds1 ++ '.' :: ds2) := by
    simp [decSplitSign]
  obtain ⟨htake, hdrop⟩ :=
    takeWhile_append_stop (p := Char.isDigit) (b := '.') ds2 (by decide) ds1 h1
  unfold parseDecCore
  rw [hsign]
  simp only
  rw [htake, hdrop]
  simp only [Option.map_some, Option.getD_some]
  rw [takeWhile_all h2, dropWhile_all h2]
  rw [if_neg (by simp [hne])]
  simp [parseExpPart]

theorem jsStrToNum_clean (cs : List Char) (hne : cs ≠ [])
    (hws : ∀ c ∈ cs, isWsChar c = false) :
    jsStrToNum (String.mk cs) = parseDecCore cs := by
  unfold jsStrToNum
  have h1 : cs.dropWhile isWsChar = cs := by
    cases cs with
    | nil => rfl
    | cons c r => rw [List.dropWhile_cons, if_neg (by simp [hws c (by simp)])]
  have h2 : cs.reverse.dropWhile isWsChar = cs.reverse := by
    cases hrev : cs.reverse with
    | nil => rfl
    | cons c r =>
      have hmem : c ∈ cs := by
        rw [← List.mem_reverse, hrev]
        simp
      rw [List.dropWhile_cons, if_neg (by simp [hws c hmem])]
  show (if ((cs.dropWhile isWsChar).reverse.dropWhile isWsChar).reverse = [] then _ else _) = _
  rw [h1, h2, List.reverse_reverse]
  rw [if_neg hne]

theorem posToChars_spec (n d : ℕ) (hdvd : d ∣ 10 ^ decExpOf d) (hdpos : 0 < d) :
    parseDecCore (posToChars n d) = some ((n : ℚ) / d)
    ∧ (∀ c ∈ posToChars n d, c.isDigit = true ∨ c = '.')
    ∧ posToChars n d ≠ []
    ∧ parseDecCore ('-' :: posToChars n d) = some (-((n : ℚ) / d)) := by
  obtain ⟨hvds, hdds, hneds⟩ := natToChars_spec (n * 10 ^ decExpOf d / d)
  by_cases hk : decExpOf d = 0
  · have hd1 : d = 1 := by
      have h2 := hdvd
      rw [hk] at h2
      simpa using h2
    have hform : posToChars n d = natToChars (n * 10 ^ decExpOf d / d) := by
      unfold posToChars
      rw [if_pos hk]
    have hteq : n * 10 ^ decExpOf d / d = n := by
      rw [hk, hd1]
      simp
    rw [hteq] at hvds hdds hneds
    refine ⟨?_, ?_, ?_, ?_⟩
    · rw [hform, hteq, parseDecCore_digits _ hneds hdds, hvds, hd1]
      norm_num
    · intro c hc
      rw [hform, hteq] at hc
      exact Or.inl (hdds c hc)
    · rw [hform, hteq]
      exact hneds
    · rw [hform, hteq, parseDecCore_neg_digits _ hneds hdds, hvds, hd1]
      norm_num
  · -- k > 0: a decimal point is placed
    set k := decExpOf d with hkdef
    set t := n * 10 ^ k / d with htdef
    set ds := natToChars t with hdsdef
    set padded := List.replicate (k + 1 - ds.length) '0' ++ ds with hpad
    have hpadlen : k + 1 ≤ padded.length := by
      rw [hpad]
      simp
      try omega
    have hpadval : charsToNat padded = t := by
      rw [hpad, charsToNat_append, charsToNat_replicate_zero, hvds]
      simp
    have hpaddig : ∀ c ∈ padded, c.isDigit = true := by
      intro c hc
      rw [hpad] at hc
      rcases List.mem_append.mp hc with hc | hc
      · rw [List.eq_of_mem_replicate hc]
        decide
      · exact hdds c hc
    have hsplit : padded.take (padded.length - k) ++ padded.drop (padded.length - k) = padded :=
      List.take_append_drop _ _
    have htklen : (padded.take (padded.length - k)).length = padded.length - k := by
      simp
    have hdplen : (padded.drop (padded.length - k)).length = k := by
      simp
      omega
    have htkne : padded.take (padded.length - k) ≠ [] := by
      intro e
      have := congrArg List.length e
      rw [htklen] at this
      simp at this
      omega
    have htkdig : ∀ c ∈ padded.take (padded.length - k), c.isDigit = true :=
      fun c hc => hpaddig c (List.take_subset _ _ hc)
    have hdpdig : ∀ c ∈ padded.drop (padded.length - k), c.isDigit = true :=
      fun c hc => hpaddig c (List.drop_subset _ _ hc)
    have hvalsplit : charsToNat (padded.take (padded.length - k)) * 10 ^ k
        + charsToNat (padded.drop (padded.length - k)) = t := by
      have h := charsToNat_append (padded.take (padded.length - k))
        (padded.drop (padded.length - k))
      rw [hsplit, hdplen, hpadval] at h
      omega
    -- the rendered token
    have hform : posToChars n d
        = padded.take (padded.length - k) ++ '.' :: padded.drop (padded.length - k) := by
      rw [posToChars]
      rw [← hkdef, ← htdef, ← hdsdef, if_neg hk, ← hpad]
    -- exact division transfer to ℚ
    obtain ⟨m, hm⟩ := hdvd
    have hmpos : 0 < m := by
      rcases Nat.eq_zero_or_pos m with hm0 | hm0
      · subst hm0
        rw [Nat.mul_zero] at hm
        exact absurd hm (by positivity)
      · exact hm0
    have htq : (t : ℚ) = (n : ℚ) * m := by
      rw [htdef, hm]
      rw [show n * (d * m) = (n * m) * d by ring]
      rw [Nat.mul_div_cancel _ hdpos]
      push_cast
      ring
    have hval : ((charsToNat (padded.take (padded.length - k)) : ℚ)
        + (charsToNat (padded.drop (padded.length - k)) : ℚ) / 10 ^ k) = (n : ℚ) / d := by
      have h10 : ((10 : ℚ) ^ k) ≠ 0 := by positivity
      have hmq : ((m : ℚ)) ≠ 0 := by positivity
      have hcast : ((charsToNat (padded.take (padded.length - k)) : ℚ) * 10 ^ k
          + (charsToNat (padded.drop (padded.length - k)) : ℚ)) = (t : ℚ) := by
        exact_mod_cast hvalsplit
      have h10m : ((10 : ℚ) ^ k) = (d : ℚ) * m := by
        exact_mod_cast hm
      have hsum : (charsToNat (padded.take (padded.length - k)) : ℚ)
          + (charsToNat (padded.drop (padded.length - k)) : ℚ) / 10 ^ k
          = ((charsToNat (padded.take (padded.length - k)) : ℚ) * 10 ^ k
            + (charsToNat (padded.drop (padded.length - k)) : ℚ)) / 10 ^ k := by
        field_simp
      rw [hsum, hcast, htq, h10m, mul_div_mul_right _ _ hmq]
    refine ⟨?_, ?_, ?_, ?_⟩
    · rw [hform, parseDecCore_digits_dot _ _ htkne htkdig hdpdig, hdplen, hval]
    · intro c hc
      rw [hform] at hc
      rcases List.mem_append.mp hc with hc | hc
      · exact Or.inl (htkdig c hc)
      · rcases List.mem_cons.mp hc with hc | hc
        · exact Or.inr hc
        · exact Or.inl (hdpdig c hc)
    · rw [hform]
      simp [htkne]
    · rw [hform, parseDecCore_neg_digits_dot _ _ htkne htkdig hdpdig, hdplen, hval]

theorem jsStrToNum_numToString (q : ℚ)
    (hval : (10 ^ decExpOf q.den % q.den == 0) = true) :
    jsStrToNum (numToString q) = some q := by
  have hdvd : q.den ∣ 10 ^ decExpOf q.den :=
    Nat.dvd_of_mod_eq_zero (by simpa using hval)
  have hdpos : 0 < q.den := q.pos
  obtain ⟨hposv, hchars, hne, hnegv⟩ := posToChars_spec q.num.natAbs q.den hdvd hdpos
  have hwsall : ∀ c ∈ posToChars q.num.natAbs q.den, isWsChar c = false := by
    intro c hc
    rcases hchars c hc with h | h
    · exact (digit_facts h).2.2.2.2.2.1
    · rw [h]
      decide
  unfold numToString
  by_cases hq : q < 0
  · rw [if_pos hq]
    have hws2 : ∀ c ∈ '-' :: posToChars q.num.natAbs q.den, isWsChar c = false := by
      intro c hc
      rcases List.mem_cons.mp hc with hc | hc
      · rw [hc]
        decide
      · exact hwsall c hc
    rw [show (['-'] ++ posToChars q.num.natAbs q.den)
        = '-' :: posToChars q.num.natAbs q.den by simp]
    rw [jsStrToNum_clean _ (by simp) hws2, hnegv]
    congr 1
    have hnum : q.num < 0 := Rat.num_neg.mpr hq
    have habs : ((q.num.natAbs : ℚ)) = -(q.num : ℚ) := by
      rw [Int.cast_natAbs, abs_of_neg hnum]
      push_cast
      ring
    rw [habs, neg_div, neg_neg, Rat.num_div_den]
  · rw [if_neg hq]
    rw [show ([] ++ posToChars q.num.natAbs q.den)
        = posToChars q.num.natAbs q.den by simp]
    rw [jsStrToNum_clean _ hne hwsall, hposv]
    congr 1
    have hnum : 0 ≤ q.num := Rat.num_nonneg.mpr (not_lt.mp hq)
    have habs : ((q.num.natAbs : ℚ)) = (q.num : ℚ) := by
      rw [Int.cast_natAbs, abs_of_nonneg hnum]
    rw [habs, Rat.num_div_den]

-- ### Validity for round-tripping and the emission lemmas

mutual

/-- A tree the serializer can reproduce exactly: text atoms that would
serialize unquoted must be nonempty, whitespace-free and not fully
numeric; numeric atoms must be finite-decimal rationals (every value a
JavaScript float can hold is one). -/
def validTree : SExpr → Bool
  | .str s =>
    if needsQuote s then true
    else decide (s ≠ "") && s.data.all (fun c => !isWsChar c) && (jsStrToNum s).isNone
  | .num q => 10 ^ decExpOf q.den % q.den == 0
  | .list xs => validTreeList xs

/-- All members valid. -/
def validTreeList : List SExpr → Bool
  | [] => true
  | x :: xs => validTree x && validTreeList xs

end

/-- The input directly after an emitted token either ends or starts
with a delimiter, so the token cannot fuse with what follows. -/
def delimBoundary : List Char → Prop
  | [] => True
  | c :: _ => isDelimChar c = true

theorem escapeChars_cons (c : Char) (cs : List Char) :
    escapeChars (c :: cs)
      = (if c = '\\' then ['\\', '\\'] else if c = '\"' then ['\\', '\"'] else [c])
        ++ escapeChars cs := by
  simp [escapeChars]

theorem scanString_escape : ∀ (s ys : List Char),
    scanString (escapeChars s ++ '\"' :: ys) = (s, ys)
  | [], ys => by simp [escapeChars, scanString.eq_def]
  | c :: cs, ys => by
    have ih := scanString_escape cs ys
    rw [escapeChars_cons]
    by_cases h1 : c = '\\'
    · subst h1
      rw [if_pos rfl]
      show scanString ('\\' :: '\\' :: (escapeChars cs ++ '\"' :: ys)) = _
      rw [scanString.eq_def]
      simp [ih]
    · by_cases h2 : c = '\"'
      · subst h2
        rw [if_neg h1, if_pos rfl]
        show scanString ('\\' :: '\"' :: (escapeChars cs ++ '\"' :: ys)) = _
        rw [scanString.eq_def]
        simp [ih]
      · rw [if_neg h1, if_neg h2]
        show scanString (c :: (escapeChars cs ++ '\"' :: ys)) = _
        rw [scanString.eq_def]
        simp [h1, h2, ih]

theorem run_ws_append : ∀ (w : List Char), (∀ c ∈ w, isWsChar c = true) →
    ∀ (zs : List Char) (F : List (List SExpr)), run (w ++ zs) F = run zs F
  | [], _ => by intro zs F; rfl
  | c :: w2, h => by
    intro zs F
    rw [List.cons_append, run_ws _ _ (h c (by simp))]
    exact run_ws_append w2 (fun d hd => h d (by simp [hd])) zs F

/-- An unquoted token followed by a boundary is scanned whole and
classified. -/
theorem atom_token_run (cs : List Char) (hne : cs ≠ [])
    (hnd : ∀ c ∈ cs, isDelimChar c = false) :
    ∀ (ys : List Char), delimBoundary ys → ∀ F,
      run (cs ++ ys) F = run ys (pushTop (classifyAtom (String.mk cs)) F) := by
  intro ys hb F
  cases cs with
  | nil => exact absurd rfl hne
  | cons c rest =>
    have hc := hnd c (by simp)
    have hrest : ∀ d ∈ rest, (fun d => !isDelimChar d) d = true := by
      intro d hd
      simp [hnd d (by simp [hd])]
    rw [List.cons_append, run_atom _ _ hc]
    cases ys with
    | nil =>
      rw [List.append_nil]
      rw [takeWhile_all hrest, dropWhile_all hrest]
    | cons y ys2 =>
      have hy : (fun d => !isDelimChar d) y = false := by
        simp
        exact hb
      obtain ⟨ht, hd⟩ := takeWhile_append_stop (p := fun d => !isDelimChar d) ys2 hy rest hrest
      rw [ht, hd]

theorem string_mk_data (s : String) : String.mk s.data = s := rfl

example (a b : String) : (a ++ b).data = a.data ++ b.data := by exact String.data_append a b

theorem numToString_token (q : ℚ) (hval : (10 ^ decExpOf q.den % q.den == 0) = true) :
    (numToString q).data ≠ [] ∧ ∀ c ∈ (numToString q).data, isDelimChar c = false := by
  have hdvd : q.den ∣ 10 ^ decExpOf q.den :=
    Nat.dvd_of_mod_eq_zero (by simpa using hval)
  obtain ⟨_, hchars, hne, _⟩ := posToChars_spec q.num.natAbs q.den hdvd q.pos
  have hdata : (numToString q).data
      = (if q < 0 then ['-'] else []) ++ posToChars q.num.natAbs q.den := rfl
  constructor
  · rw [hdata]
    intro e
    rcases List.append_eq_nil.mp e with ⟨_, h2⟩
    exact hne h2
  · intro c hc
    rw [hdata] at hc
    rcases List.mem_append.mp hc with hc | hc
    · by_cases hq : q < 0
      · rw [if_pos hq] at hc
        simp at hc
        rw [hc]
        decide
      · rw [if_neg hq] at hc
        simp at hc
    · rcases hchars c hc with h | h
      · exact (digit_facts h).2.2.2.2.2.2
      · rw [h]
        decide

theorem strAtom_facts (s : String) (hq : needsQuote s = false)
    (hv : (decide (s ≠ "") && s.data.all (fun c => !isWsChar c)
      && (jsStrToNum s).isNone) = true) :
    s.data ≠ [] ∧ (∀ c ∈ s.data, isDelimChar c = false) ∧ jsStrToNum s = none := by
  simp only [Bool.and_eq_true, decide_eq_true_eq, List.all_eq_true, Option.isNone_iff_eq_none]
    at hv
  obtain ⟨⟨hne, hws⟩, hnone⟩ := hv
  simp only [needsQuote, Bool.or_eq_false_iff] at hq
  obtain ⟨⟨⟨hsp, hop⟩, hcp⟩, hqq⟩ := hq
  refine ⟨?_, ?_, hnone⟩
  · intro e
    apply hne
    have h4 : s = String.mk s.data := (string_mk_data s).symm
    rw [h4, e]
  · intro c hc
    have hnw := hws c hc
    simp only [Bool.not_eq_true'] at hnw
    simp at hsp hop hcp hqq
    have h1 : c ≠ '(' := fun e => hop (e ▸ hc)
    have h2 : c ≠ ')' := fun e => hcp (e ▸ hc)
    have h3 : c ≠ '\"' := fun e => hqq (e ▸ hc)
    simp [isDelimChar, hnw, h1, h2, h3]



theorem classifyAtom_none {s : String} (h : jsStrToNum s = none) :
    classifyAtom s = .str s := by
  unfold classifyAtom
  rw [h]

theorem classifyAtom_some {s : String} {q : ℚ} (h : jsStrToNum s = some q)
    (hne : s ≠ "") : classifyAtom s = .num q := by
  unfold classifyAtom
  rw [h]
  simp [hne]

theorem multiBody_boundary (cs : List SExpr) (i : ℕ) (zs : List Char) :
    delimBoundary ((serializeMultiBody cs i).data ++ ')' :: zs) := by
  cases cs with
  | nil =>
    show delimBoundary ((serializeMultiBody [] i).data ++ ')' :: zs)
    rw [serializeMultiBody.eq_def]
    show delimBoundary (("" : String).data ++ ')' :: zs)
    simp [delimBoundary, isDelimChar]
  | cons c cs2 =>
    rw [serializeMultiBody.eq_def]
    cases c with
    | str s =>
      show delimBoundary (((" " ++ serializeSExpression (.str s) i)
        ++ serializeMultiBody cs2 i).data ++ ')' :: zs)
      simp only [String.data_append]
      show delimBoundary ((' ' :: (serializeSExpression (.str s) i).data
        ++ (serializeMultiBody cs2 i).data) ++ ')' :: zs)
      simp [delimBoundary, isDelimChar, isWsChar]
    | num q =>
      show delimBoundary (((" " ++ serializeSExpression (.num q) i)
        ++ serializeMultiBody cs2 i).data ++ ')' :: zs)
      simp only [String.data_append]
      show delimBoundary ((' ' :: (serializeSExpression (.num q) i).data
        ++ (serializeMultiBody cs2 i).data) ++ ')' :: zs)
      simp [delimBoundary, isDelimChar, isWsChar]
    | list l =>
      show delimBoundary ((("\n" ++ tabs i ++ serializeSExpression (.list l) i)
        ++ serializeMultiBody cs2 i).data ++ ')' :: zs)
      simp only [String.data_append]
      show delimBoundary ((('\n' :: (tabs i).data
        ++ (serializeSExpression (.list l) i).data)
        ++ (serializeMultiBody cs2 i).data) ++ ')' :: zs)
      simp [delimBoundary, isDelimChar, isWsChar]

theorem serialize_str (s : String) (i : ℕ) :
    serializeSExpression (.str s) i
      = if needsQuote s then "\"" ++ String.mk (escapeChars s.data) ++ "\"" else s := by
  rw [serializeSExpression.eq_def]

theorem serialize_num (q : ℚ) (i : ℕ) :
    serializeSExpression (.num q) i = numToString q := by
  rw [serializeSExpression.eq_def]

theorem serialize_list_nil (i : ℕ) :
    serializeSExpression (.list []) i = "()" := by
  rw [serializeSExpression.eq_def]

theorem serialize_list_cons (tag : SExpr) (children : List SExpr) (i : ℕ) :
    serializeSExpression (.list (tag :: children)) i
      = if ((children.all fun c =>
            match c with
            | SExpr.list l => decide (l.length ≤ 3)
            | _ => true) = true ∧ children.length ≤ 4)
        then (if ("(" ++ joinSep " " (serializeParts (tag :: children) (i + 1)) ++ ")").length < 100
          then "(" ++ joinSep " " (serializeParts (tag :: children) (i + 1)) ++ ")"
          else "(" ++ serializeSExpression tag (i + 1)
            ++ serializeMultiBody children (i + 1) ++ ")")
        else "(" ++ serializeSExpression tag (i + 1)
          ++ serializeMultiBody children (i + 1) ++ ")" := by
  rw [serializeSExpression.eq_def]

theorem parts_cons (x : SExpr) (xs : List SExpr) (i : ℕ) :
    serializeParts (x :: xs) i = serializeSExpression x i :: serializeParts xs i := by
  rw [serializeParts.eq_def]

theorem multiBody_nil (i : ℕ) : serializeMultiBody [] i = "" := by
  rw [serializeMultiBody.eq_def]

theorem multiBody_cons (c : SExpr) (cs : List SExpr) (i : ℕ) :
    serializeMultiBody (c :: cs) i
      = (match c with
          | .list _ => "\n" ++ tabs i ++ serializeSExpression c i
          | _ => " " ++ serializeSExpression c i) ++ serializeMultiBody cs i := by
  rw [serializeMultiBody.eq_def]

theorem validTree_str (s : String) :
    validTree (.str s)
      = if needsQuote s then true
        else decide (s ≠ "") && s.data.all (fun c => !isWsChar c) && (jsStrToNum s).isNone := by
  rw [validTree.eq_def]

theorem validTree_num (q : ℚ) :
    validTree (.num q) = (10 ^ decExpOf q.den % q.den == 0) := by
  rw [validTree.eq_def]

theorem validTree_list (xs : List SExpr) :
    validTree (.list xs) = validTreeList xs := by
  rw [validTree.eq_def]

theorem validTreeList_cons (x : SExpr) (xs : List SExpr) :
    validTreeList (x :: xs) = (validTree x && validTreeList xs) := by
  rw [validTreeList.eq_def]

mutual

/-- An emitted serialization, followed by a delimiter or the end of
input, parses back to exactly the serialized node pushed onto the
current frame. -/
theorem serialize_run (t : SExpr) (hv : validTree t = true) (indent : ℕ) :
    ∀ (ys : List Char) (F : List (List SExpr)), F ≠ [] → delimBoundary ys →
      run ((serializeSExpression t indent).data ++ ys) F = run ys (pushTop t F) := by
  match t with
  | .str s =>
    intro ys F hF hb
    rw [serialize_str]
    by_cases hq : needsQuote s
    · rw [if_pos hq]
      simp only [String.data_append, List.append_assoc, List.cons_append,
        List.singleton_append]
      show run ('\"' :: (escapeChars s.data ++ '\"' :: ys)) F = _
      rw [run_quote, scanString_escape s.data ys]
    · rw [if_neg hq]
      have hv2 : (decide (s ≠ "") && s.data.all (fun c => !isWsChar c)
          && (jsStrToNum s).isNone) = true := by
        rw [validTree_str] at hv
        simpa [hq] using hv
      obtain ⟨hne, hnd, hnone⟩ := strAtom_facts s (by simp [hq]) hv2
      rw [atom_token_run s.data hne hnd ys hb F]
      rw [string_mk_data, classifyAtom_none hnone]
  | .num q =>
    intro ys F hF hb
    rw [serialize_num]
    have hval : (10 ^ decExpOf q.den % q.den == 0) = true := by
      rw [validTree_num] at hv
      exact hv
    obtain ⟨hne, hnd⟩ := numToString_token q hval
    rw [atom_token_run (numToString q).data hne hnd ys hb F]
    rw [string_mk_data]
    rw [classifyAtom_some (jsStrToNum_numToString q hval)]
    intro e
    apply hne
    rw [e]
  | .list [] =>
    intro ys F hF hb
    rw [serialize_list_nil]
    show run ('(' :: ')' :: ys) F = _
    rw [run_open]
    match F, hF with
    | g :: gs, _ =>
      rw [run_close_cons]
      rfl
  | .list (tag :: children) =>
    intro ys F hF hb
    have hvl : validTreeList (tag :: children) = true := by
      rw [validTree_list] at hv
      exact hv
    have hsplit : validTree tag = true ∧ validTreeList children = true := by
      rw [validTreeList_cons] at hvl
      simpa using hvl
    rw [serialize_list_cons]
    by_cases hc1 : ((children.all fun c =>
        match c with
        | SExpr.list l => decide (l.length ≤ 3)
        | _ => true) = true ∧ children.length ≤ 4)
    · rw [if_pos hc1]
      by_cases hc2 : ("(" ++ joinSep " " (serializeParts (tag :: children) (indent + 1))
          ++ ")").length < 100
      · rw [if_pos hc2]
        simp only [String.data_append, List.append_assoc, List.cons_append,
          List.singleton_append]
        show run ('(' :: ((joinSep " " (serializeParts (tag :: children) (indent + 1))).data
          ++ ')' :: ys)) F = _
        rw [run_open]
        match F, hF with
        | g :: gs, _ =>
          rw [parts_run (tag :: children) hvl (indent + 1) ys [] (g :: gs)]
          rw [run_close_cons]
          rfl
      · rw [if_neg hc2]
        simp only [String.data_append, List.append_assoc, List.cons_append,
          List.singleton_append]
        show run ('(' :: ((serializeSExpression tag (indent + 1)).data
          ++ ((serializeMultiBody children (indent + 1)).data ++ ')' :: ys))) F = _
        rw [run_open]
        rw [serialize_run tag hsplit.1 (indent + 1) _ ([] :: F) (by simp)
          (multiBody_boundary children (indent + 1) ys)]
        match F, hF with
        | g :: gs, _ =>
          rw [show pushTop tag ([] :: g :: gs) = [tag] :: g :: gs from rfl]
          rw [multi_run children hsplit.2 (indent + 1) ys [tag] (g :: gs)]
          rw [run_close_cons]
          rfl
    · rw [if_neg hc1]
      simp only [String.data_append, List.append_assoc, List.cons_append,
        List.singleton_append]
      show run ('(' :: ((serializeSExpression tag (indent + 1)).data
        ++ ((serializeMultiBody children (indent + 1)).data ++ ')' :: ys))) F = _
      rw [run_open]
      rw [serialize_run tag hsplit.1 (indent + 1) _ ([] :: F) (by simp)
        (multiBody_boundary children (indent + 1) ys)]
      match F, hF with
      | g :: gs, _ =>
        rw [show pushTop tag ([] :: g :: gs) = [tag] :: g :: gs from rfl]
        rw [multi_run children hsplit.2 (indent + 1) ys [tag] (g :: gs)]
        rw [run_close_cons]
        rfl

/-- The one-line body: space-joined parts append their nodes to the
open frame. -/
theorem parts_run (xs : List SExpr) (hv : validTreeList xs = true) (i : ℕ) :
    ∀ (ys : List Char) (g : List SExpr) (F : List (List SExpr)),
      run ((joinSep " " (serializeParts xs i)).data ++ ')' :: ys) (g :: F)
        = run (')' :: ys) ((g ++ xs) :: F) := by
  match xs with
  | [] =>
    intro ys g F
    show run ((joinSep " " (serializeParts [] i)).data ++ ')' :: ys) (g :: F) = _
    show run (')' :: ys) (g :: F) = _
    rw [List.append_nil]
  | [x] =>
    intro ys g F
    have hvx : validTree x = true := by
      rw [validTreeList_cons] at hv
      exact (by simpa using hv : validTree x = true ∧ validTreeList [] = true).1
    rw [parts_cons]
    show run ((serializeSExpression x i).data ++ ')' :: ys) (g :: F) = _
    rw [serialize_run x hvx i (')' :: ys) (g :: F) (by simp)
      (by simp [delimBoundary, isDelimChar])]
    rfl
  | x :: y :: rest =>
    intro ys g F
    have hvx : validTree x = true ∧ validTreeList (y :: rest) = true := by
      rw [validTreeList_cons] at hv
      simpa using hv
    rw [parts_cons, parts_cons]
    show run ((joinSep " " (serializeSExpression x i :: serializeSExpression y i
      :: serializeParts rest i)).data ++ ')' :: ys) (g :: F) = _
    show run (((serializeSExpression x i ++ " ")
      ++ joinSep " " (serializeSExpression y i :: serializeParts rest i)).data
      ++ ')' :: ys) (g :: F) = _
    simp only [String.data_append, List.append_assoc, List.cons_append,
      List.singleton_append]
    show run ((serializeSExpression x i).data
      ++ (' ' :: ((joinSep " " (serializeSExpression y i :: serializeParts rest i)).data
        ++ ')' :: ys))) (g :: F) = _
    rw [serialize_run x hvx.1 i _ (g :: F) (by simp)
      (by simp [delimBoundary, isDelimChar, isWsChar])]
    rw [show pushTop x (g :: F) = (g ++ [x]) :: F from rfl]
    rw [run_ws (F := (g ++ [x]) :: F) _ (by decide)]
    rw [show (serializeSExpression y i :: serializeParts rest i)
      = serializeParts (y :: rest) i from (parts_cons y rest i).symm]
    rw [parts_run (y :: rest) hvx.2 i ys (g ++ [x]) F]
    rw [List.append_assoc]
    rfl

/-- The multi-line body: each separator-prefixed child appends its node
to the open frame. -/
theorem multi_run (xs : List SExpr) (hv : validTreeList xs = true) (i : ℕ) :
    ∀ (ys : List Char) (g : List SExpr) (F : List (List SExpr)),
      run ((serializeMultiBody xs i).data ++ ')' :: ys) (g :: F)
        = run (')' :: ys) ((g ++ xs) :: F) := by
  match xs with
  | [] =>
    intro ys g F
    rw [multiBody_nil]
    show run (')' :: ys) (g :: F) = _
    rw [List.append_nil]
  | c :: cs =>
    intro ys g F
    have hvc : validTree c = true ∧ validTreeList cs = true := by
      rw [validTreeList_cons] at hv
      simpa using hv
    rw [multiBody_cons]
    have hstep : ∀ (sep : List Char), (∀ d ∈ sep, isWsChar d = true) →
        run ((sep ++ ((serializeSExpression c i).data
            ++ ((serializeMultiBody cs i).data ++ ')' :: ys)))) (g :: F)
          = run (')' :: ys) ((g ++ c :: cs) :: F) := by
      intro sep hsep
      rw [run_ws_append sep hsep]
      rw [serialize_run c hvc.1 i _ (g :: F) (by simp)
        (multiBody_boundary cs i ys)]
      rw [show pushTop c (g :: F) = (g ++ [c]) :: F from rfl]
      rw [multi_run cs hvc.2 i ys (g ++ [c]) F]
      simp
    cases c with
    | str s =>
      show run (((" " ++ serializeSExpression (.str s) i)
        ++ serializeMultiBody cs i).data ++ ')' :: ys) (g :: F) = _
      simp only [String.data_append, List.append_assoc, List.cons_append,
        List.singleton_append]
      exact hstep [' '] (by decide)
    | num q =>
      show run (((" " ++ serializeSExpression (.num q) i)
        ++ serializeMultiBody cs i).data ++ ')' :: ys) (g :: F) = _
      simp only [String.data_append, List.append_assoc, List.cons_append,
        List.singleton_append]
      exact hstep [' '] (by decide)
    | list l =>
      show run ((("\n" ++ tabs i ++ serializeSExpression (.list l) i)
        ++ serializeMultiBody cs i).data ++ ')' :: ys) (g :: F) = _
      simp only [String.data_append, List.append_assoc, List.cons_append,
        List.singleton_append]
      have htabs : ∀ d ∈ '\n' :: (tabs i).data, isWsChar d = true := by
        intro d hd
        rcases List.mem_cons.mp hd with hd | hd
        · rw [hd]
          decide
        · have hd2 : d ∈ List.replicate i '\t' := by simpa [tabs] using hd
          rw [List.eq_of_mem_replicate hd2]
          decide
      have h2 := hstep ('\n' :: (tabs i).data) htabs
      rw [← h2]
      simp

end

theorem validTreeList_nil : validTreeList [] = true := by
  rw [validTreeList.eq_def]

section C2
attribute [local semireducible] Rat.add Rat.mul Rat.inv Rat.sub

/-- C2 (corrected): re-parsing a serialized tree reproduces the tree
only for valid trees — those whose text atoms either serialize quoted
or are nonempty, whitespace-free and not numeric-looking, and whose
numeric atoms have a finite decimal expansion. For such trees
`parseSExpression (serializeSExpression t)` yields exactly `[t]`.
Unrestricted, the round-trip fails: a text atom whose characters form
a number (for example "42") serializes unquoted and re-parses as a
numeric atom. -/
theorem claim_c2 (t : SExpr) (hv : validTree t = true) :
    parseSExpression (serializeSExpression t 0) = [t] := by
  show run (serializeSExpression t 0).data [[]] = [t]
  have h := serialize_run t hv 0 [] [[]] (by simp) trivial
  rw [List.append_nil] at h
  rw [h, run_nil]
  rfl

/-- C2 counterexample: the text atom "42" serializes to the unquoted
token `42`, which re-parses as the numeric atom 42, so the round trip
does not return the original tree. -/
theorem claim_c2_counterexample :
    parseSExpression (serializeSExpression (SExpr.str "42") 0) = [SExpr.num 42] ∧
    [SExpr.num 42] ≠ [SExpr.str "42"] := by
  constructor
  · have hs : serializeSExpression (SExpr.str "42") 0 = "42" := by
      rw [serialize_str]
      decide
    rw [hs]
    exact parseSExpression_eval (by decide)
  · decide

/-- C2 witness: a concrete valid tree round-trips. -/
theorem claim_c2_witness :
    validTree (SExpr.list [SExpr.str "a", SExpr.num 42]) = true ∧
    parseSExpression (serializeSExpression (SExpr.list [SExpr.str "a", SExpr.num 42]) 0)
      = [SExpr.list [SExpr.str "a", SExpr.num 42]] := by
  have hv : validTree (SExpr.list [SExpr.str "a", SExpr.num 42]) = true := by
    rw [validTree_list, validTreeList_cons, validTree_str, validTreeList_cons,
      validTree_num, validTreeList_nil]
    decide
  exact ⟨hv, claim_c2 _ hv⟩

end C2

/-- C8: a stray unmatched closing parenthesis never aborts the scan:
with only the root frame open, the close is a no-op on the stack (the
re-seeded stack is the root frame, contents preserved), and a valid
tree serialized after the stray token still parses into the top-level
root sequence. -/
theorem claim_c8 (t : SExpr) (hv : validTree t = true) :
    (∀ cs f, run (')' :: cs) [f] = run cs [f]) ∧
    parseSExpression (")" ++ serializeSExpression t 0) = [t] := by
  constructor
  · intro cs f
    exact run_close_one cs f
  · show run ((")" ++ serializeSExpression t 0)).data [[]] = [t]
    rw [String.data_append]
    show run (')' :: (serializeSExpression t 0).data) [[]] = [t]
    rw [run_close_one]
    have h := serialize_run t hv 0 [] [[]] (by simp) trivial
    rw [List.append_nil] at h
    rw [h, run_nil]
    rfl

/-- C8 witness: parsing a stray close followed by a concrete list
still yields that list at top level. -/
theorem claim_c8_witness :
    validTree (SExpr.list [SExpr.str "b"]) = true ∧
    parseSExpression (")" ++ serializeSExpression (SExpr.list [SExpr.str "b"]) 0)
      = [SExpr.list [SExpr.str "b"]] := by
  have hv : validTree (SExpr.list [SExpr.str "b"]) = true := by
    rw [validTree_list, validTreeList_cons, validTree_str, validTreeList_nil]
    decide
  exact ⟨hv, (claim_c8 _ hv).2⟩
